import Mathlib

/-!
Verification development for the dad-circles matching engine.

The definitions below are a shallow embedding of the JavaScript matching
service in `src/api/matching.js` (functions `runRealMatching`,
`getUnmatchedUsersJS`, `getLifeStageFromUserJS`, `sortUsersByAgeJS`,
`createGroupJS`, `assignUsersToGroupJS`).  JS numbers are modelled as `Int`,
the Firestore `profiles` collection as a `List Profile` (one entry per
document, keyed by `session_id`), and the `groups` collection as a
`List GroupRec`.  `Date.now()` values and the current calendar date are
explicit parameters (`time : Int`, `now : YM`), and the random group-id
generator is an explicit parameter `gidGen : Nat → String` (the source builds
ids from a timestamp plus a random suffix).

The introduction-email phase (`sendGroupEmailsJS`) is outside the model: it
writes only to the `groups` collection (email bookkeeping fields and the
pending→active status transition) and never writes a user profile, so it is
irrelevant to the profile-level and group-formation claims treated here.
-/

namespace DadCircles

/-- Child type tag, `'expecting' | 'existing'` in `types.ts`. -/
inductive ChildType where
  | expecting
  | existing
deriving DecidableEq

/-- A child record (`Child` in `types.ts`): birth (or due) month and year. -/
structure Child where
  ctype : ChildType
  birth_month : Int
  birth_year : Int
  gender : Option String := none
deriving DecidableEq

/-- A location (`UserLocation` in `types.ts`). -/
structure Location where
  city : String
  state_code : String
deriving DecidableEq

/-- A user profile document in the `profiles` collection.  Besides the fields
the matching engine reads and writes, we carry the onboarding fields
(`onboarded`, `onboarding_step`, `interests`) so that frame claims ("no other
field is written") are expressible. -/
structure Profile where
  session_id : String
  email : Option String := none
  onboarded : Bool := false
  onboarding_step : String := ""
  interests : List String := []
  location : Option Location := none
  children : List Child := []
  matching_eligible : Bool := false
  group_id : Option String := none
  matched_at : Option Int := none
  last_updated : Int := 0
deriving DecidableEq

/-- A group document in the `groups` collection (shape built at
`src/api/matching.js` lines 203-212 and 352-363). -/
structure GroupRec where
  group_id : String
  name : String
  created_at : Int
  location : Location
  member_ids : List String
  member_emails : List String
  status : String
  emailed_member_ids : List String
  test_mode : Bool
  life_stage : String
deriving DecidableEq

/-- Life stage buckets. -/
inductive LifeStage where
  | expecting
  | newborn
  | infant
  | toddler
deriving DecidableEq

/-- The string name used for a life stage in the source. -/
def lifeStageName : LifeStage → String
  | .expecting => "Expecting"
  | .newborn => "Newborn"
  | .infant => "Infant"
  | .toddler => "Toddler"

/-- A calendar instant as the JS code reads it: `getFullYear()` and
`getMonth() + 1` (so `month` ranges over 1..12 on real dates). -/
structure YM where
  year : Int
  month : Int
deriving DecidableEq

/-- JS truthiness of the optional string field `group_id`: `!user.group_id`
is true exactly when the field is absent/null or the empty string. -/
def truthy : Option String → Bool
  | none => false
  | some s => s != ""

/-- Embeds `getLifeStageFromUserJS` (`src/api/matching.js` lines 299-324):
classify a user by the first child in the list; `now` is the explicit
counterpart of the `new Date()` read in the source. -/
def getLifeStageFromUser (now : YM) (user : Profile) : Option LifeStage :=
  match user.children with
  | [] => none
  | primaryChild :: _ =>
    if primaryChild.ctype = ChildType.expecting then
      some LifeStage.expecting
    else
      let ageInMonths : Int :=
        (now.year - primaryChild.birth_year) * 12 + (now.month - primaryChild.birth_month)
      if ageInMonths ≤ 6 then some LifeStage.newborn
      else if ageInMonths ≤ 18 then some LifeStage.infant
      else if ageInMonths ≤ 36 then some LifeStage.toddler
      else none

/-- The location filter of `getUnmatchedUsersJS`: when both `city` and
`stateCode` are given, Firestore keeps documents whose `location.city` and
`location.state_code` equal them (documents with no `location` never match). -/
def locMatches (scope : Option Location) (u : Profile) : Bool :=
  match scope with
  | none => true
  | some sc =>
    match u.location with
    | some l => decide (l.city = sc.city) && decide (l.state_code = sc.state_code)
    | none => false

/-- Embeds `getUnmatchedUsersJS` (`src/api/matching.js` lines 271-294): the
eligibility query `matching_eligible == true` (plus the optional location
scope) followed by the in-memory filter `!user.group_id`. -/
def getUnmatchedUsers (profiles : List Profile) (scope : Option Location) : List Profile :=
  ((profiles.filter (fun u => u.matching_eligible)).filter (locMatches scope)).filter
    (fun u => !truthy u.group_id)

/-- First child of a user, `user.children[0]` in the source.  Bucketed users
always have a nonempty child list (their life stage resolved), so the default
is never observed by the algorithm. -/
def child0 (u : Profile) : Child :=
  u.children.headD { ctype := ChildType.existing, birth_month := 0, birth_year := 0 }

/-- Sort key of an `Expecting` bucket member: `new Date(birth_year,
birth_month - 1).getTime()` is strictly monotone in the number of months
`birth_year * 12 + (birth_month - 1)` since the epoch, so comparing that month
count reproduces the comparator of `sortUsersByAgeJS` exactly. -/
def dueKey (c : Child) : Int :=
  c.birth_year * 12 + (c.birth_month - 1)

/-- Sort key of a non-expecting bucket member: the child's age in months as
computed by `sortUsersByAgeJS` (lines 342-343). -/
def ageKey (now : YM) (c : Child) : Int :=
  (now.year - c.birth_year) * 12 + (now.month - c.birth_month)

/-- The comparator key of `sortUsersByAgeJS` for a given life stage. -/
def sortKey (now : YM) (ls : LifeStage) (u : Profile) : Int :=
  match ls with
  | .expecting => dueKey (child0 u)
  | _ => ageKey now (child0 u)

/-- The comparator relation: user `a` may precede user `b`. -/
def sortLe (now : YM) (ls : LifeStage) (a b : Profile) : Prop :=
  sortKey now ls a ≤ sortKey now ls b

instance (now : YM) (ls : LifeStage) : DecidableRel (sortLe now ls) :=
  fun a b => inferInstanceAs (Decidable (sortKey now ls a ≤ sortKey now ls b))

instance (now : YM) (ls : LifeStage) : IsTotal Profile (sortLe now ls) :=
  ⟨fun _ _ => Int.le_total _ _⟩

instance (now : YM) (ls : LifeStage) : IsTrans Profile (sortLe now ls) :=
  ⟨fun _ _ _ h1 h2 => le_trans h1 h2⟩

/-- Embeds `sortUsersByAgeJS` (`src/api/matching.js` lines 329-347):
`Array.prototype.sort` with a numeric comparator on `sortKey` is a stable
ascending sort by that key, which insertion sort on `sortLe` implements. -/
def sortUsersByAge (now : YM) (ls : LifeStage) (users : List Profile) : List Profile :=
  users.insertionSort (sortLe now ls)

/-- `minGroupSize` at `src/api/matching.js` line 185. -/
def minGroupSize : Nat := 4

/-- `maxGroupSize` at `src/api/matching.js` line 186. -/
def maxGroupSize : Nat := 6

/-- Fuel-indexed form of the chunking loop; the fuel only bounds the number of
iterations (any fuel at least the list length gives the same value). -/
def chunkListAux : Nat → List Profile → List (List Profile)
  | 0, _ => []
  | fuel + 1, l =>
    if (l.take maxGroupSize).length < minGroupSize then []
    else l.take maxGroupSize :: chunkListAux fuel (l.drop maxGroupSize)

/-- The chunking loop of `runRealMatching` (lines 193-225): slices of
`maxGroupSize` from the front of the sorted list; the loop breaks as soon as
the next slice is shorter than `minGroupSize`. -/
def chunkList (l : List Profile) : List (List Profile) :=
  chunkListAux l.length l

/-- The bucket key string `` `${city}|${state_code}` `` (line 149). -/
def locationKey (l : Location) : String :=
  l.city ++ "|" ++ l.state_code

/-- Bucket key of a user, when the user has a location. -/
def keyOf (u : Profile) : String :=
  match u.location with
  | some l => locationKey l
  | none => ""

/-- Whether a user enters some bucket: a location is present and a life stage
resolves (lines 144-155 skip the user otherwise). -/
def hasBucket (now : YM) (u : Profile) : Bool :=
  u.location.isSome && (getLifeStageFromUser now u).isSome

/-- Membership of user `u` in the bucket with key `k` and stage `ls`. -/
def inBucket (now : YM) (k : String) (ls : LifeStage) (u : Profile) : Bool :=
  match u.location with
  | some l => decide (locationKey l = k) && decide (getLifeStageFromUser now u = some ls)
  | none => false

/-- The users pushed into bucket `(k, ls)`, in snapshot order (line 166). -/
def bucketUsers (now : YM) (snapshot : List Profile) (k : String) (ls : LifeStage) :
    List Profile :=
  snapshot.filter (inBucket now k ls)

/-- First-occurrence deduplication with a seen-set accumulator, matching the
creation of `locationLifeStageBuckets` entries: a key is appended the first
time it is encountered. -/
def dedupSeen (seen : List String) : List String → List String
  | [] => []
  | x :: xs => if x ∈ seen then dedupSeen seen xs else x :: dedupSeen (x :: seen) xs

/-- First-occurrence deduplication, matching the insertion order of string
keys in the JS object `locationLifeStageBuckets`. -/
def dedupKeepFirst (l : List String) : List String :=
  dedupSeen [] l

/-- The location keys of the buckets, in order of first appearance: an entry
of `locationLifeStageBuckets` is created when the first located, classifiable
user with that key is seen (lines 157-164). -/
def keysInOrder (now : YM) (snapshot : List Profile) : List String :=
  dedupKeepFirst ((snapshot.filter (hasBucket now)).map keyOf)

/-- The four per-location stage buckets, in the iteration order of the loops
at lines 175-179: locations in insertion order, stages in the fixed object
order Expecting, Newborn, Infant, Toddler. -/
def allStages : List LifeStage :=
  [LifeStage.expecting, LifeStage.newborn, LifeStage.infant, LifeStage.toddler]

/-- All (location key, stage) buckets processed by the run, in order. -/
def bucketPairs (now : YM) (snapshot : List Profile) : List (String × LifeStage) :=
  (keysInOrder now snapshot) ×ˢ allStages

/-- The chunks formed from one bucket: nothing when the bucket is below the
minimum size (line 188), else the greedy chunking of the age-sorted bucket. -/
def chunksOfBucket (now : YM) (ls : LifeStage) (users : List Profile) :
    List (List Profile) :=
  if minGroupSize ≤ users.length then chunkList (sortUsersByAge now ls users) else []

/-- Pair every list element with an index starting at `start`. -/
def withIdx {α : Type} (start : Nat) : List α → List (Nat × α)
  | [] => []
  | a :: as => (start, a) :: withIdx (start + 1) as

/-- A committed chunk together with its bucket key, stage and the per-bucket
`groupSequence` number (starting at 1, line 193). -/
structure ChunkInfo where
  key : String
  stage : LifeStage
  seq : Nat
  chunk : List Profile
deriving DecidableEq

/-- All chunks committed by one run, in processing order: for every bucket in
iteration order, the chunks of that bucket numbered from 1. -/
def committedChunks (now : YM) (snapshot : List Profile) : List ChunkInfo :=
  (bucketPairs now snapshot).flatMap (fun p =>
    (withIdx 1 (chunksOfBucket now p.2 (bucketUsers now snapshot p.1 p.2))).map
      (fun q => { key := p.1, stage := p.2, seq := q.1, chunk := q.2 }))

/-- Recover the group's `location` from the bucket key as the source does:
`locationKey.split('|')` destructured into city and state code (line 176). -/
def parseLocationKey (k : String) : Location :=
  match k.splitOn "|" with
  | c :: s :: _ => { city := c, state_code := s }
  | _ => { city := k, state_code := "" }

/-- The group document built for an accepted chunk (lines 203-212) merged with
the fields `createGroupJS` adds (lines 352-358): the fresh id and
`created_at := Date.now()`. -/
def mkGroupOf (testMode : Bool) (time : Int) (gid : String) (ci : ChunkInfo) : GroupRec :=
  { group_id := gid
    name := (parseLocationKey ci.key).city ++ " " ++ lifeStageName ci.stage ++
      " Dads - Group " ++ toString ci.seq
    created_at := time
    location := parseLocationKey ci.key
    member_ids := ci.chunk.map (fun u => u.session_id)
    member_emails := (ci.chunk.map (fun u => u.email.getD "")).filter (fun e => e != "")
    status := "pending"
    emailed_member_ids := []
    test_mode := testMode
    life_stage := lifeStageName ci.stage }

/-- The profile update of `assignUsersToGroupJS` (lines 374-378): the batch
writes exactly `group_id`, `matched_at` and `last_updated`. -/
def assignUser (groupId : String) (time : Int) (p : Profile) : Profile :=
  { p with group_id := some groupId, matched_at := some time, last_updated := time }

/-- Embeds `assignUsersToGroupJS` (lines 369-382): one batched update of the
listed profiles; profiles not listed are untouched. -/
def assignUsersToGroup (sessionIds : List String) (groupId : String) (time : Int)
    (profiles : List Profile) : List Profile :=
  profiles.map (fun p => if p.session_id ∈ sessionIds then assignUser groupId time p else p)

/-- One iteration of the commit loop (lines 202-222): persist the group
document (`createGroupJS`), then batch-assign its members
(`assignUsersToGroupJS`). -/
def commitChunk (testMode : Bool) (time : Int) (gid : String) (ci : ChunkInfo)
    (st : List Profile × List GroupRec) : List Profile × List GroupRec :=
  let savedGroup := mkGroupOf testMode time gid ci
  (assignUsersToGroup (ci.chunk.map (fun u => u.session_id)) savedGroup.group_id time st.1,
    st.2 ++ [savedGroup])

/-- Failure model of the same commit step.  In the source the group document
is persisted by its own `setDoc` and the member updates go through a separate
`writeBatch` whose `commit()` is atomic but can fail; `batchOk` records
whether that batch commit succeeds.  On failure the group document (already
written) remains and none of the member updates are applied. -/
def commitChunkFallible (batchOk : Bool) (testMode : Bool) (time : Int) (gid : String)
    (ci : ChunkInfo) (st : List Profile × List GroupRec) :
    List Profile × List GroupRec :=
  let savedGroup := mkGroupOf testMode time gid ci
  if batchOk then
    (assignUsersToGroup (ci.chunk.map (fun u => u.session_id)) savedGroup.group_id time st.1,
      st.2 ++ [savedGroup])
  else
    (st.1, st.2 ++ [savedGroup])

/-- The result object returned by `runRealMatching` (lines 251-257). -/
structure RunResult where
  groups_created : Nat
  users_matched : Nat
  users_unmatched : Nat
  summary : String
  groups : List GroupRec
deriving DecidableEq

/-- One run's observable outcome: the returned result plus the database state
it leaves behind (updated profiles, newly created group documents). -/
structure RunOutcome where
  result : RunResult
  profiles : List Profile
  newGroups : List GroupRec
deriving DecidableEq

/-- Embeds `runRealMatching` (`src/api/matching.js` lines 120-266).  The
chunks are computed from the initial snapshot (the source builds all buckets
from the one `getUnmatchedUsersJS` read before any write), and the commit loop
then persists each accepted chunk in order.  `gidGen n` is the id generated
for the `n`-th `createGroupJS` call of the run. -/
def runRealMatching (profiles : List Profile) (scope : Option Location) (testMode : Bool)
    (now : YM) (time : Int) (gidGen : Nat → String) : RunOutcome :=
  let snapshot := getUnmatchedUsers profiles scope
  if snapshot.isEmpty then
    { result := { groups_created := 0, users_matched := 0, users_unmatched := 0,
                  summary := "No unmatched users found", groups := [] }
      profiles := profiles
      newGroups := [] }
  else
    let cs := committedChunks now snapshot
    let final := (withIdx 0 cs).foldl
      (fun st p => commitChunk testMode time (gidGen p.1) p.2 st) (profiles, [])
    let totalUsersMatched := (cs.map (fun ci => ci.chunk.length)).sum
    let totalUsersUnmatched := snapshot.length - totalUsersMatched
    { result := { groups_created := final.2.length
                  users_matched := totalUsersMatched
                  users_unmatched := totalUsersUnmatched
                  summary := "Created " ++ toString final.2.length ++ " groups, matched " ++
                    toString totalUsersMatched ++ " users, " ++
                    toString totalUsersUnmatched ++ " remain unmatched"
                  groups := final.2 }
      profiles := final.1
      newGroups := final.2 }

/-- A persistent engine state: the `profiles` collection and the accumulated
`groups` collection. -/
structure MState where
  profiles : List Profile
  groups : List GroupRec
deriving DecidableEq

/-- Parameters of one `run_matching` invocation. -/
structure RunParams where
  scope : Option Location
  testMode : Bool
  now : YM
  time : Int
  gidGen : Nat → String

/-- Execute one matching run against the persistent state. -/
def stepRun (s : MState) (pr : RunParams) : MState :=
  let o := runRealMatching s.profiles pr.scope pr.testMode pr.now pr.time pr.gidGen
  { profiles := o.profiles, groups := s.groups ++ o.newGroups }

/-- Execute a sequence of matching runs. -/
def runSeq (s : MState) : List RunParams → MState
  | [] => s
  | pr :: rest => runSeq (stepRun s pr) rest

/-- Age/due-date spread of a chunk: the difference between the largest and the
smallest sort key among its members (months of age, or due-months for the
Expecting stage). -/
def keySpread (now : YM) (ls : LifeStage) (chunk : List Profile) : Int :=
  match chunk.map (sortKey now ls) with
  | [] => 0
  | h :: t => t.foldl max h - t.foldl min h

/-- The combined snapshot predicate: eligibility query, optional location
scope, and the `!user.group_id` filter. -/
def allPred (scope : Option Location) (u : Profile) : Bool :=
  (u.matching_eligible && locMatches scope u) && !truthy u.group_id

/-- All profiles committed into some group by a run over `snapshot`. -/
def matchedProfiles (now : YM) (snapshot : List Profile) : List Profile :=
  (committedChunks now snapshot).flatMap (fun ci => ci.chunk)

/-- Session ids of all profiles committed by a run over `snapshot`. -/
def matchedIds (now : YM) (snapshot : List Profile) : List String :=
  (matchedProfiles now snapshot).map (fun u => u.session_id)

/-- All profiles committed out of one bucket. -/
def matchedOfBucket (now : YM) (snapshot : List Profile) (k : String) (ls : LifeStage) :
    List Profile :=
  (chunksOfBucket now ls (bucketUsers now snapshot k ls)).flatten

/-- One member-assignment instruction: the session ids of a chunk and the
group id they receive. -/
def assignStep (time : Int) (a : List String × String) (p : Profile) : Profile :=
  if p.session_id ∈ a.1 then assignUser a.2 time p else p

/-- Net effect of the whole commit loop on one profile document. -/
def assignFun (time : Int) (asn : List (List String × String)) (p : Profile) : Profile :=
  asn.foldl (fun q a => assignStep time a q) p

/-- The assignment instructions issued by a run with the given chunks. -/
def asnOfRun (gidGen : Nat → String) (cs : List ChunkInfo) :
    List (List String × String) :=
  (withIdx 0 cs).map (fun p => (p.2.chunk.map (fun u => u.session_id), gidGen p.1))

/-- Two groups have no member in common. -/
def memberDisjoint (g1 g2 : GroupRec) : Prop :=
  ∀ x ∈ g1.member_ids, x ∉ g2.member_ids

/-- State invariant tying the `groups` collection to the `profiles`
collection: profile ids are unique, committed groups are pairwise disjoint,
and every committed member's stored profile carries a truthy `group_id`. -/
def Inv (s : MState) : Prop :=
  (s.profiles.map (fun p => p.session_id)).Nodup ∧
  s.groups.Pairwise memberDisjoint ∧
  ∀ g ∈ s.groups, ∀ x ∈ g.member_ids,
    ∃ p ∈ s.profiles, p.session_id = x ∧ truthy p.group_id = true

/-! Concrete fixtures used by counterexamples and witnesses. -/

/-- A fixed test location. -/
def loc0 : Location := { city := "A", state_code := "B" }

/-- A minimal eligible, unmatched profile with one child. -/
def mkUser (sid : String) (ct : ChildType) (byr bm : Int) : Profile :=
  { session_id := sid
    email := some (sid ++ "@x.com")
    location := some loc0
    children := [{ ctype := ct, birth_month := bm, birth_year := byr }]
    matching_eligible := true }

/-- A fixed classification date: October 2025. -/
def now1 : YM := { year := 2025, month := 10 }

/-- A concrete id generator of the shape `createGroupJS` produces. -/
def gidA : Nat → String := fun n => "group-" ++ toString n

/-- Five eligible Toddler-bucket users whose first children are 19, 20, 21, 22
and 36 months old in October 2025 — the threshold-rejection scenario of the
spec (Toddler threshold 6 months, actual spread 17 months). -/
def c1db : List Profile :=
  [mkUser "u1" ChildType.existing 2024 3, mkUser "u2" ChildType.existing 2024 2,
   mkUser "u3" ChildType.existing 2024 1, mkUser "u4" ChildType.existing 2023 12,
   mkUser "u5" ChildType.existing 2022 10]

/-- Thirteen eligible same-city Newborn users (all born September 2025). -/
def db13 : List Profile :=
  (List.range 13).map (fun i =>
    mkUser ("u" ++ toString i) ChildType.existing 2025 9)

/-- Four newborn users for the commit-step scenarios; `w1` … `w4`. -/
def chunk4 : List Profile :=
  [mkUser "w1" ChildType.existing 2025 9, mkUser "w2" ChildType.existing 2025 9,
   mkUser "w3" ChildType.existing 2025 9, mkUser "w4" ChildType.existing 2025 9]

/-- The current stored profiles at commit time in the re-check scenario:
`w1` has acquired `group_id = "g-old"` since the snapshot was taken. -/
def c3db : List Profile :=
  [{ mkUser "w1" ChildType.existing 2025 9 with group_id := some "g-old" },
   mkUser "w2" ChildType.existing 2025 9, mkUser "w3" ChildType.existing 2025 9,
   mkUser "w4" ChildType.existing 2025 9]

/-- The accepted chunk (built from the earlier snapshot, in which `w1` was
still unmatched) handed to the committer in the re-check and atomicity
scenarios. -/
def chunk4Info : ChunkInfo :=
  { key := "A|B", stage := LifeStage.newborn, seq := 1, chunk := chunk4 }

/-- Run parameters used by concrete witnesses: unscoped, non-test run in
October 2025 at `Date.now() = 5` with the concrete id generator. -/
def runParamsA : RunParams :=
  { scope := none, testMode := false, now := now1, time := 5, gidGen := gidA }

/-- Initial persistent state for the cross-run witness: the four newborn
users and no groups. -/
def state0 : MState := { profiles := chunk4, groups := [] }

/-! Lemmas about the chunking loop. -/

theorem chunkListAux_nil (fuel : Nat) : chunkListAux fuel [] = [] := by
  cases fuel <;> simp [chunkListAux, minGroupSize, maxGroupSize]

theorem min_le_of_take_not_lt {l : List Profile}
    (hc : ¬ (l.take maxGroupSize).length < minGroupSize) : minGroupSize ≤ l.length := by
  simp only [List.length_take, minGroupSize, maxGroupSize] at hc ⊢
  omega

theorem drop_max_length_le {l : List Profile} {f : Nat}
    (_h0 : 1 ≤ l.length) (hf : l.length ≤ f + 1) : (l.drop maxGroupSize).length ≤ f := by
  simp only [List.length_drop, maxGroupSize]
  omega

theorem chunkListAux_congr :
    ∀ fuel1 fuel2 (l : List Profile), l.length ≤ fuel1 → l.length ≤ fuel2 →
      chunkListAux fuel1 l = chunkListAux fuel2 l := by
  intro fuel1
  induction fuel1 with
  | zero =>
    intro fuel2 l h1 _
    have hl : l = [] := List.eq_nil_of_length_eq_zero (Nat.le_zero.mp h1)
    subst hl
    simp [chunkListAux_nil]
  | succ f1 ih =>
    intro fuel2 l h1 h2
    cases fuel2 with
    | zero =>
      have hl : l = [] := List.eq_nil_of_length_eq_zero (Nat.le_zero.mp h2)
      subst hl
      simp [chunkListAux_nil]
    | succ f2 =>
      show (if (l.take maxGroupSize).length < minGroupSize then []
          else l.take maxGroupSize :: chunkListAux f1 (l.drop maxGroupSize)) =
        (if (l.take maxGroupSize).length < minGroupSize then []
          else l.take maxGroupSize :: chunkListAux f2 (l.drop maxGroupSize))
      by_cases hc : (l.take maxGroupSize).length < minGroupSize
      · rw [if_pos hc, if_pos hc]
      · have h0 : 1 ≤ l.length := le_trans (by simp [minGroupSize]) (min_le_of_take_not_lt hc)
        rw [if_neg hc, if_neg hc, ih _ _ (drop_max_length_le h0 h1) (drop_max_length_le h0 h2)]

theorem chunkList_eq (l : List Profile) :
    chunkList l =
      if (l.take maxGroupSize).length < minGroupSize then []
      else l.take maxGroupSize :: chunkList (l.drop maxGroupSize) := by
  unfold chunkList
  cases l with
  | nil => simp [chunkListAux_nil, minGroupSize, maxGroupSize]
  | cons x xs =>
    show (if ((x :: xs).take maxGroupSize).length < minGroupSize then []
        else (x :: xs).take maxGroupSize :: chunkListAux xs.length ((x :: xs).drop maxGroupSize)) = _
    by_cases hc : ((x :: xs).take maxGroupSize).length < minGroupSize
    · rw [if_pos hc, if_pos hc]
    · have hle : ((x :: xs).drop maxGroupSize).length ≤ xs.length :=
        drop_max_length_le (by simp) (by simp)
      rw [if_neg hc, if_neg hc, chunkListAux_congr _ _ _ hle (Nat.le_refl _)]

theorem chunkList_length_bounds :
    ∀ (l : List Profile), ∀ c ∈ chunkList l,
      minGroupSize ≤ c.length ∧ c.length ≤ maxGroupSize := by
  have aux : ∀ fuel (l : List Profile), ∀ c ∈ chunkListAux fuel l,
      minGroupSize ≤ c.length ∧ c.length ≤ maxGroupSize := by
    intro fuel
    induction fuel with
    | zero => intro l c hc; simp [chunkListAux] at hc
    | succ f ih =>
      intro l c hc
      rw [show chunkListAux (f + 1) l =
          (if (l.take maxGroupSize).length < minGroupSize then []
            else l.take maxGroupSize :: chunkListAux f (l.drop maxGroupSize)) from rfl] at hc
      by_cases h : (l.take maxGroupSize).length < minGroupSize
      · rw [if_pos h] at hc
        simp at hc
      · rw [if_neg h] at hc
        rcases List.mem_cons.mp hc with rfl | hc
        · refine ⟨Nat.le_of_not_lt h, ?_⟩
          simp [List.length_take]
        · exact ih _ _ hc
  intro l c hc
  exact aux _ _ _ hc

theorem chunkList_flatten_eq :
    ∀ (l : List Profile), ∃ t, (chunkList l).flatten ++ t = l ∧ t.length < minGroupSize := by
  have aux : ∀ fuel (l : List Profile), l.length ≤ fuel →
      ∃ t, (chunkListAux fuel l).flatten ++ t = l ∧ t.length < minGroupSize := by
    intro fuel
    induction fuel with
    | zero =>
      intro l h
      have hl : l = [] := List.eq_nil_of_length_eq_zero (Nat.le_zero.mp h)
      subst hl
      exact ⟨[], by simp [chunkListAux], by simp [minGroupSize]⟩
    | succ f ih =>
      intro l h
      rw [show chunkListAux (f + 1) l =
          (if (l.take maxGroupSize).length < minGroupSize then []
            else l.take maxGroupSize :: chunkListAux f (l.drop maxGroupSize)) from rfl]
      by_cases hc : (l.take maxGroupSize).length < minGroupSize
      · rw [if_pos hc]
        refine ⟨l, by simp, ?_⟩
        simp only [List.length_take, minGroupSize, maxGroupSize] at hc ⊢
        omega
      · have h0 : 1 ≤ l.length := le_trans (by simp [minGroupSize]) (min_le_of_take_not_lt hc)
        obtain ⟨t, ht, htl⟩ := ih (l.drop maxGroupSize) (drop_max_length_le h0 h)
        rw [if_neg hc]
        refine ⟨t, ?_, htl⟩
        rw [List.flatten_cons, List.append_assoc, ht, List.take_append_drop]
  intro l
  exact aux l.length l (Nat.le_refl _)

theorem chunkList_getElem :
    ∀ (l : List Profile) (i : Nat), i < (chunkList l).length →
      (chunkList l)[i]? = some ((l.drop (maxGroupSize * i)).take maxGroupSize) := by
  have aux : ∀ fuel (l : List Profile), l.length ≤ fuel → ∀ i,
      i < (chunkListAux fuel l).length →
      (chunkListAux fuel l)[i]? = some ((l.drop (maxGroupSize * i)).take maxGroupSize) := by
    intro fuel
    induction fuel with
    | zero => intro l _ i hi; simp [chunkListAux] at hi
    | succ f ih =>
      intro l h i hi
      rw [show chunkListAux (f + 1) l =
          (if (l.take maxGroupSize).length < minGroupSize then []
            else l.take maxGroupSize :: chunkListAux f (l.drop maxGroupSize)) from rfl] at hi ⊢
      by_cases hc : (l.take maxGroupSize).length < minGroupSize
      · rw [if_pos hc] at hi
        simp at hi
      · have h0 : 1 ≤ l.length := le_trans (by simp [minGroupSize]) (min_le_of_take_not_lt hc)
        rw [if_neg hc] at hi ⊢
        cases i with
        | zero => simp
        | succ j =>
          simp only [List.length_cons, Nat.succ_lt_succ_iff] at hi
          have hrec := ih (l.drop maxGroupSize) (drop_max_length_le h0 h) j hi
          simp only [List.getElem?_cons_succ, hrec, List.drop_drop]
          congr 2
          ring_nf
  intro l i hi
  exact aux l.length l (Nat.le_refl _) i hi

/-! Lemmas about first-occurrence deduplication. -/

theorem mem_dedupSeen :
    ∀ (l : List String) (seen : List String) (k : String),
      k ∈ dedupSeen seen l ↔ k ∈ l ∧ k ∉ seen := by
  intro l
  induction l with
  | nil => intro seen k; simp [dedupSeen]
  | cons x xs ih =>
    intro seen k
    simp only [dedupSeen]
    by_cases hx : x ∈ seen
    · simp only [hx, ite_true, ih, List.mem_cons]
      constructor
      · rintro ⟨h1, h2⟩; exact ⟨Or.inr h1, h2⟩
      · rintro ⟨h1 | h1, h2⟩
        · subst h1; exact absurd hx h2
        · exact ⟨h1, h2⟩
    · simp only [hx, ite_false, List.mem_cons, ih, List.mem_cons]
      constructor
      · rintro (rfl | ⟨h1, h2⟩)
        · exact ⟨Or.inl rfl, hx⟩
        · exact ⟨Or.inr h1, fun hk => h2 (Or.inr hk)⟩
      · rintro ⟨rfl | h1, h2⟩
        · exact Or.inl rfl
        · by_cases hkx : k = x
          · exact Or.inl hkx
          · exact Or.inr ⟨h1, fun hk => by
              rcases hk with h | h
              · exact hkx h
              · exact h2 h⟩

theorem nodup_dedupSeen :
    ∀ (l : List String) (seen : List String), (dedupSeen seen l).Nodup := by
  intro l
  induction l with
  | nil => intro seen; simp [dedupSeen]
  | cons x xs ih =>
    intro seen
    simp only [dedupSeen]
    by_cases hx : x ∈ seen
    · simp only [hx, ite_true]; exact ih seen
    · simp only [hx, ite_false, List.nodup_cons]
      refine ⟨fun hmem => ?_, ih (x :: seen)⟩
      have := (mem_dedupSeen xs (x :: seen) x).mp hmem
      exact this.2 (List.mem_cons_self _ _)

theorem mem_dedupKeepFirst {l : List String} {k : String} :
    k ∈ dedupKeepFirst l ↔ k ∈ l := by
  unfold dedupKeepFirst
  rw [mem_dedupSeen]
  simp

theorem nodup_dedupKeepFirst (l : List String) : (dedupKeepFirst l).Nodup :=
  nodup_dedupSeen l []

/-! Lemmas about index pairing. -/

theorem withIdx_map_snd {α : Type} :
    ∀ (l : List α) (start : Nat), (withIdx start l).map Prod.snd = l := by
  intro l
  induction l with
  | nil => intro start; simp [withIdx]
  | cons a as ih => intro start; simp [withIdx, ih]

theorem mem_withIdx {α : Type} :
    ∀ (l : List α) (start : Nat) (p : Nat × α), p ∈ withIdx start l → p.2 ∈ l := by
  intro l
  induction l with
  | nil => intro start p hp; simp [withIdx] at hp
  | cons a as ih =>
    intro start p hp
    simp only [withIdx, List.mem_cons] at hp
    rcases hp with rfl | hp
    · simp
    · exact List.mem_cons_of_mem _ (ih _ _ hp)

/-! Lemmas about the stable sort. -/

theorem sortUsersByAge_perm (now : YM) (ls : LifeStage) (users : List Profile) :
    List.Perm (sortUsersByAge now ls users) users :=
  List.perm_insertionSort _ _

theorem sortUsersByAge_sorted (now : YM) (ls : LifeStage) (users : List Profile) :
    (sortUsersByAge now ls users).Pairwise (sortLe now ls) :=
  List.sorted_insertionSort _ _

theorem filter_orderedInsert_key (now : YM) (ls : LifeStage) (kv : Int) (a : Profile) :
    ∀ l : List Profile,
      (List.orderedInsert (sortLe now ls) a l).filter
          (fun u => decide (sortKey now ls u = kv)) =
        if sortKey now ls a = kv then
          a :: l.filter (fun u => decide (sortKey now ls u = kv))
        else l.filter (fun u => decide (sortKey now ls u = kv)) := by
  intro l
  induction l with
  | nil =>
    by_cases ha : sortKey now ls a = kv <;>
      simp [List.orderedInsert, List.filter_cons, ha]
  | cons b t ih =>
    by_cases hab : sortLe now ls a b
    · rw [List.orderedInsert, if_pos hab]
      by_cases ha : sortKey now ls a = kv <;>
        simp [List.filter_cons, ha]
    · rw [List.orderedInsert, if_neg hab]
      by_cases hb : sortKey now ls b = kv
      · have ha : ¬ sortKey now ls a = kv := by
          intro ha
          exact hab (le_of_eq (ha.trans hb.symm))
        simp [List.filter_cons, hb, ha, ih]
      · simp [List.filter_cons, hb, ih]

theorem sortUsersByAge_filter_key (now : YM) (ls : LifeStage) (kv : Int) :
    ∀ users : List Profile,
      (sortUsersByAge now ls users).filter (fun u => decide (sortKey now ls u = kv)) =
        users.filter (fun u => decide (sortKey now ls u = kv)) := by
  intro users
  induction users with
  | nil => rfl
  | cons a t ih =>
    show (List.orderedInsert (sortLe now ls) a
        (List.insertionSort (sortLe now ls) t)).filter _ = _
    rw [filter_orderedInsert_key]
    by_cases ha : sortKey now ls a = kv
    · rw [if_pos ha]
      rw [show (List.insertionSort (sortLe now ls) t).filter
          (fun u => decide (sortKey now ls u = kv)) =
          t.filter (fun u => decide (sortKey now ls u = kv)) from ih]
      simp [List.filter_cons, ha]
    · rw [if_neg ha]
      rw [show (List.insertionSort (sortLe now ls) t).filter
          (fun u => decide (sortKey now ls u = kv)) =
          t.filter (fun u => decide (sortKey now ls u = kv)) from ih]
      simp [List.filter_cons, ha]

/-! Lemmas about the snapshot query. -/

theorem getUnmatchedUsers_eq_filter (profiles : List Profile) (scope : Option Location) :
    getUnmatchedUsers profiles scope = profiles.filter (allPred scope) := by
  unfold getUnmatchedUsers
  rw [List.filter_filter, List.filter_filter]
  apply List.filter_congr
  intro u _
  unfold allPred
  cases truthy u.group_id <;> cases locMatches scope u <;> cases u.matching_eligible <;> rfl

theorem mem_getUnmatchedUsers {profiles : List Profile} {scope : Option Location}
    {u : Profile} :
    u ∈ getUnmatchedUsers profiles scope ↔ u ∈ profiles ∧ allPred scope u = true := by
  rw [getUnmatchedUsers_eq_filter, List.mem_filter]

theorem allPred_parts {scope : Option Location} {u : Profile}
    (h : allPred scope u = true) :
    truthy u.group_id = false ∧ u.matching_eligible = true ∧ locMatches scope u = true := by
  unfold allPred at h
  cases hg : truthy u.group_id <;> cases hl : locMatches scope u <;>
    cases he : u.matching_eligible <;> simp_all

/-! Lemmas about assignment of members to groups. -/

theorem assignUser_session_id (g : String) (t : Int) (p : Profile) :
    (assignUser g t p).session_id = p.session_id := rfl

theorem assignUser_twice (g g' : String) (t : Int) (p : Profile) :
    assignUser g t (assignUser g' t p) = assignUser g t p := rfl

theorem assignStep_session_id (t : Int) (a : List String × String) (p : Profile) :
    (assignStep t a p).session_id = p.session_id := by
  unfold assignStep
  split <;> rfl

theorem assignUsersToGroup_eq_map (t : Int) (a : List String × String)
    (dbp : List Profile) :
    assignUsersToGroup a.1 a.2 t dbp = dbp.map (assignStep t a) := rfl

theorem assignFun_session_id (t : Int) :
    ∀ (asn : List (List String × String)) (p : Profile),
      (assignFun t asn p).session_id = p.session_id := by
  intro asn
  induction asn with
  | nil => intro p; rfl
  | cons a rest ih =>
    intro p
    show (assignFun t rest (assignStep t a p)).session_id = _
    rw [ih, assignStep_session_id]

theorem assignFun_not_mem (t : Int) :
    ∀ (asn : List (List String × String)) (p : Profile),
      (∀ a ∈ asn, p.session_id ∉ a.1) → assignFun t asn p = p := by
  intro asn
  induction asn with
  | nil => intro p _; rfl
  | cons a rest ih =>
    intro p h
    show assignFun t rest (assignStep t a p) = p
    have hstep : assignStep t a p = p := by
      unfold assignStep
      rw [if_neg (h a (List.mem_cons_self _ _))]
    rw [hstep]
    exact ih p (fun b hb => h b (List.mem_cons_of_mem _ hb))

theorem assignFun_mem (t : Int) :
    ∀ (asn : List (List String × String)) (p : Profile),
      (∃ a ∈ asn, p.session_id ∈ a.1) →
      ∃ g ∈ asn.map Prod.snd, assignFun t asn p = assignUser g t p := by
  intro asn
  induction asn with
  | nil => rintro p ⟨a, ha, _⟩; simp at ha
  | cons a rest ih =>
    intro p h
    show ∃ g ∈ (a.2 :: rest.map Prod.snd), assignFun t rest (assignStep t a p) = assignUser g t p
    by_cases hp : p.session_id ∈ a.1
    · have hstep : assignStep t a p = assignUser a.2 t p := by
        unfold assignStep
        rw [if_pos hp]
      rw [hstep]
      by_cases hrest : ∃ b ∈ rest, p.session_id ∈ b.1
      · have hrest' : ∃ b ∈ rest, (assignUser a.2 t p).session_id ∈ b.1 := by
          rw [assignUser_session_id]; exact hrest
        obtain ⟨g, hg, he⟩ := ih (assignUser a.2 t p) hrest'
        exact ⟨g, List.mem_cons_of_mem _ hg, he.trans (assignUser_twice _ _ _ _)⟩
      · push_neg at hrest
        have : assignFun t rest (assignUser a.2 t p) = assignUser a.2 t p := by
          apply assignFun_not_mem
          intro b hb
          rw [assignUser_session_id]
          exact hrest b hb
        exact ⟨a.2, List.mem_cons_self _ _, this⟩
    · have hstep : assignStep t a p = p := by
        unfold assignStep
        rw [if_neg hp]
      rw [hstep]
      obtain ⟨b, hb, hpb⟩ := h
      rcases List.mem_cons.mp hb with rfl | hb
      · exact absurd hpb hp
      · obtain ⟨g, hg, he⟩ := ih p ⟨b, hb, hpb⟩
        exact ⟨g, List.mem_cons_of_mem _ hg, he⟩

theorem assign_foldl_eq_map (t : Int) :
    ∀ (asn : List (List String × String)) (dbp : List Profile),
      asn.foldl (fun d a => assignUsersToGroup a.1 a.2 t d) dbp =
        dbp.map (assignFun t asn) := by
  intro asn
  induction asn with
  | nil =>
    intro dbp
    simp only [List.foldl_nil]
    exact (List.map_id'' (fun _ => rfl) dbp).symm
  | cons a rest ih =>
    intro dbp
    simp only [List.foldl_cons]
    rw [assignUsersToGroup_eq_map, ih, List.map_map]
    rfl

theorem commit_foldl (testMode : Bool) (time : Int) (gidGen : Nat → String) :
    ∀ (cs : List (Nat × ChunkInfo)) (dbp : List Profile) (gacc : List GroupRec),
      cs.foldl (fun st p => commitChunk testMode time (gidGen p.1) p.2 st) (dbp, gacc) =
        (cs.foldl (fun d p =>
            assignUsersToGroup (p.2.chunk.map (fun u => u.session_id)) (gidGen p.1) time d) dbp,
          gacc ++ cs.map (fun p => mkGroupOf testMode time (gidGen p.1) p.2)) := by
  intro cs
  induction cs with
  | nil => intro dbp gacc; simp
  | cons c rest ih =>
    intro dbp gacc
    simp only [List.foldl_cons, List.map_cons]
    rw [show commitChunk testMode time (gidGen c.1) c.2 (dbp, gacc) =
        (assignUsersToGroup (c.2.chunk.map (fun u => u.session_id)) (gidGen c.1) time dbp,
          gacc ++ [mkGroupOf testMode time (gidGen c.1) c.2]) from rfl]
    rw [ih]
    simp

/-! Lemmas about buckets. -/

theorem mem_allStages (ls : LifeStage) : ls ∈ allStages := by
  cases ls <;> simp [allStages]

theorem nodup_allStages : allStages.Nodup := by
  simp [allStages]

theorem inBucket_parts {now : YM} {k : String} {ls : LifeStage} {u : Profile}
    (h : inBucket now k ls u = true) :
    ∃ l, u.location = some l ∧ locationKey l = k ∧ getLifeStageFromUser now u = some ls := by
  unfold inBucket at h
  cases hl : u.location with
  | none => rw [hl] at h; simp at h
  | some l =>
    rw [hl] at h
    simp only [Bool.and_eq_true, decide_eq_true_eq] at h
    exact ⟨l, rfl, h.1, h.2⟩

theorem inBucket_unique {now : YM} {k k' : String} {ls ls' : LifeStage} {u : Profile}
    (h : inBucket now k ls u = true) (h' : inBucket now k' ls' u = true) :
    k = k' ∧ ls = ls' := by
  obtain ⟨l, hl, hk, hs⟩ := inBucket_parts h
  obtain ⟨l', hl', hk', hs'⟩ := inBucket_parts h'
  rw [hl] at hl'
  injection hl' with e
  subst e
  rw [hs] at hs'
  injection hs' with e'
  exact ⟨hk.symm.trans hk', e'⟩

theorem hasBucket_of_inBucket {now : YM} {k : String} {ls : LifeStage} {u : Profile}
    (h : inBucket now k ls u = true) :
    hasBucket now u = true ∧ keyOf u = k := by
  obtain ⟨l, hl, hk, hs⟩ := inBucket_parts h
  constructor
  · unfold hasBucket
    rw [hl, hs]
    rfl
  · unfold keyOf
    rw [hl]
    exact hk

theorem mem_bucketPairs_of_inBucket {now : YM} {snapshot : List Profile}
    {k : String} {ls : LifeStage} {u : Profile} (hu : u ∈ snapshot)
    (h : inBucket now k ls u = true) :
    (k, ls) ∈ bucketPairs now snapshot := by
  unfold bucketPairs
  rw [List.mem_product]
  refine ⟨?_, mem_allStages ls⟩
  unfold keysInOrder
  rw [mem_dedupKeepFirst]
  exact List.mem_map.mpr ⟨u,
    List.mem_filter.mpr ⟨hu, (hasBucket_of_inBucket h).1⟩,
    (hasBucket_of_inBucket h).2⟩

theorem nodup_bucketPairs (now : YM) (snapshot : List Profile) :
    (bucketPairs now snapshot).Nodup :=
  List.Nodup.product (nodup_dedupKeepFirst _) nodup_allStages

theorem mem_bucketUsers {now : YM} {snapshot : List Profile} {k : String}
    {ls : LifeStage} {u : Profile} :
    u ∈ bucketUsers now snapshot k ls ↔ u ∈ snapshot ∧ inBucket now k ls u = true :=
  List.mem_filter

/-! Lemmas about the committed chunks. -/

theorem chunksOfBucket_flatten_sublist (now : YM) (ls : LifeStage) (users : List Profile) :
    (chunksOfBucket now ls users).flatten.Sublist (sortUsersByAge now ls users) := by
  unfold chunksOfBucket
  split
  · obtain ⟨t, ht, _⟩ := chunkList_flatten_eq (sortUsersByAge now ls users)
    have hs : (chunkList (sortUsersByAge now ls users)).flatten.Sublist
        ((chunkList (sortUsersByAge now ls users)).flatten ++ t) :=
      List.sublist_append_left _ _
    rwa [ht] at hs
  · simp

theorem mem_matchedOfBucket {now : YM} {snapshot : List Profile} {k : String}
    {ls : LifeStage} {v : Profile} (h : v ∈ matchedOfBucket now snapshot k ls) :
    v ∈ bucketUsers now snapshot k ls := by
  unfold matchedOfBucket at h
  have h2 := (chunksOfBucket_flatten_sublist now ls (bucketUsers now snapshot k ls)).mem h
  exact (sortUsersByAge_perm now ls _).mem_iff.mp h2

theorem withIdx_flatMap_snd {α : Type} :
    ∀ (L : List (List α)) (s : Nat), (withIdx s L).flatMap (fun q => q.2) = L.flatten := by
  intro L
  induction L with
  | nil => intro s; rfl
  | cons c cs ih =>
    intro s
    simp only [withIdx, List.flatMap_cons, List.flatten_cons, ih]

theorem matchedProfiles_eq (now : YM) (snapshot : List Profile) :
    matchedProfiles now snapshot =
      (bucketPairs now snapshot).flatMap
        (fun p => matchedOfBucket now snapshot p.1 p.2) := by
  unfold matchedProfiles committedChunks
  rw [List.flatMap_assoc]
  apply List.flatMap_congr  -- pointwise
  intro p _
  rw [List.flatMap_map]
  unfold matchedOfBucket
  exact withIdx_flatMap_snd _ _

theorem mem_matchedProfiles {now : YM} {snapshot : List Profile} {v : Profile} :
    v ∈ matchedProfiles now snapshot ↔
      ∃ k ls, (k, ls) ∈ bucketPairs now snapshot ∧ v ∈ matchedOfBucket now snapshot k ls := by
  rw [matchedProfiles_eq, List.mem_flatMap]
  constructor
  · rintro ⟨p, hp, hv⟩
    exact ⟨p.1, p.2, hp, hv⟩
  · rintro ⟨k, ls, hp, hv⟩
    exact ⟨(k, ls), hp, hv⟩

theorem mem_snapshot_of_mem_matchedProfiles {now : YM} {snapshot : List Profile}
    {v : Profile} (h : v ∈ matchedProfiles now snapshot) : v ∈ snapshot := by
  obtain ⟨k, ls, _, hv⟩ := mem_matchedProfiles.mp h
  exact (mem_bucketUsers.mp (mem_matchedOfBucket hv)).1

theorem nodup_matchedIds {now : YM} {snapshot : List Profile}
    (h : (snapshot.map (fun p => p.session_id)).Nodup) :
    (matchedIds now snapshot).Nodup := by
  unfold matchedIds
  rw [matchedProfiles_eq, List.map_flatMap]
  apply List.nodup_flatMap.mpr
  constructor
  · intro p _
    have h1 : ((bucketUsers now snapshot p.1 p.2).map (fun q => q.session_id)).Nodup :=
      h.sublist ((List.filter_sublist snapshot).map _)
    have h2 : ((sortUsersByAge now p.2 (bucketUsers now snapshot p.1 p.2)).map
        (fun q => q.session_id)).Nodup :=
      (((sortUsersByAge_perm now p.2 _).map _).nodup_iff).mpr h1
    exact h2.sublist ((chunksOfBucket_flatten_sublist now p.2 _).map _)
  · have hpw : (bucketPairs now snapshot).Pairwise (fun p q => p ≠ q) :=
      nodup_bucketPairs now snapshot
    apply hpw.imp
    intro p q hpq
    intro x hxp hxq
    obtain ⟨u, hu, hux⟩ := List.mem_map.mp hxp
    obtain ⟨v, hv, hvx⟩ := List.mem_map.mp hxq
    have hub := mem_bucketUsers.mp (mem_matchedOfBucket hu)
    have hvb := mem_bucketUsers.mp (mem_matchedOfBucket hv)
    have huv : u = v :=
      List.inj_on_of_nodup_map h hub.1 hvb.1 (hux.trans hvx.symm)
    subst huv
    exact hpq (Prod.ext (inBucket_unique hub.2 hvb.2).1 (inBucket_unique hub.2 hvb.2).2)

theorem matchedIds_sum_length (now : YM) (snapshot : List Profile) :
    (matchedIds now snapshot).length =
      ((committedChunks now snapshot).map (fun ci => ci.chunk.length)).sum := by
  unfold matchedIds matchedProfiles
  rw [List.length_map, List.length_flatMap]
  rfl

/-! Projection lemmas for `runRealMatching`. -/

theorem run_assign_fold (time : Int) (gidGen : Nat → String) :
    ∀ (cs : List (Nat × ChunkInfo)) (dbp : List Profile),
      cs.foldl (fun d p =>
          assignUsersToGroup (p.2.chunk.map (fun u => u.session_id)) (gidGen p.1) time d) dbp =
        dbp.map (assignFun time
          (cs.map (fun p => (p.2.chunk.map (fun u => u.session_id), gidGen p.1)))) := by
  intro cs
  induction cs with
  | nil =>
    intro dbp
    simp only [List.foldl_nil, List.map_nil]
    exact (List.map_id'' (fun _ => rfl) dbp).symm
  | cons c rest ih =>
    intro dbp
    simp only [List.foldl_cons, List.map_cons]
    rw [show assignUsersToGroup (c.2.chunk.map (fun u => u.session_id)) (gidGen c.1) time dbp =
        dbp.map (assignStep time (c.2.chunk.map (fun u => u.session_id), gidGen c.1)) from rfl]
    rw [ih, List.map_map]
    rfl

theorem run_empty {profiles : List Profile} {scope : Option Location} {testMode : Bool}
    {now : YM} {time : Int} {gidGen : Nat → String}
    (h : getUnmatchedUsers profiles scope = []) :
    runRealMatching profiles scope testMode now time gidGen =
      { result := { groups_created := 0, users_matched := 0, users_unmatched := 0,
                    summary := "No unmatched users found", groups := [] }
        profiles := profiles
        newGroups := [] } := by
  unfold runRealMatching
  rw [h]
  rfl

theorem run_eq {profiles : List Profile} {scope : Option Location} {testMode : Bool}
    {now : YM} {time : Int} {gidGen : Nat → String}
    (h : ¬ getUnmatchedUsers profiles scope = []) :
    runRealMatching profiles scope testMode now time gidGen =
      (let snapshot := getUnmatchedUsers profiles scope
       let cs := committedChunks now snapshot
       let groups := (withIdx 0 cs).map (fun p => mkGroupOf testMode time (gidGen p.1) p.2)
       let totalUsersMatched := (cs.map (fun ci => ci.chunk.length)).sum
       let totalUsersUnmatched := snapshot.length - totalUsersMatched
       { result := { groups_created := groups.length
                     users_matched := totalUsersMatched
                     users_unmatched := totalUsersUnmatched
                     summary := "Created " ++ toString groups.length ++ " groups, matched " ++
                       toString totalUsersMatched ++ " users, " ++
                       toString totalUsersUnmatched ++ " remain unmatched"
                     groups := groups }
         profiles := profiles.map (assignFun time (asnOfRun gidGen cs))
         newGroups := groups }) := by
  unfold runRealMatching
  rw [if_neg (by simpa using h)]
  simp only [commit_foldl, run_assign_fold, List.nil_append]
  rfl

/-! Helpers for group size and count bookkeeping. -/

theorem committedChunks_size {now : YM} {snapshot : List Profile} {ci : ChunkInfo}
    (h : ci ∈ committedChunks now snapshot) :
    minGroupSize ≤ ci.chunk.length ∧ ci.chunk.length ≤ maxGroupSize := by
  unfold committedChunks at h
  obtain ⟨p, _, hci⟩ := List.mem_flatMap.mp h
  obtain ⟨q, hq, rfl⟩ := List.mem_map.mp hci
  have hc : q.2 ∈ chunksOfBucket now p.2 (bucketUsers now snapshot p.1 p.2) :=
    mem_withIdx _ _ _ hq
  unfold chunksOfBucket at hc
  by_cases hs : minGroupSize ≤ (bucketUsers now snapshot p.1 p.2).length
  · rw [if_pos hs] at hc
    exact chunkList_length_bounds _ _ hc
  · rw [if_neg hs] at hc
    simp at hc

theorem mkGroupOf_member_ids (testMode : Bool) (time : Int) (gid : String) (ci : ChunkInfo) :
    (mkGroupOf testMode time gid ci).member_ids = ci.chunk.map (fun u => u.session_id) := rfl

theorem run_groups_eq {profiles : List Profile} {scope : Option Location} {testMode : Bool}
    {now : YM} {time : Int} {gidGen : Nat → String}
    (h : ¬ getUnmatchedUsers profiles scope = []) :
    (runRealMatching profiles scope testMode now time gidGen).result.groups =
      (withIdx 0 (committedChunks now (getUnmatchedUsers profiles scope))).map
        (fun p => mkGroupOf testMode time (gidGen p.1) p.2) := by
  rw [run_eq h]

theorem run_profiles_eq {profiles : List Profile} {scope : Option Location} {testMode : Bool}
    {now : YM} {time : Int} {gidGen : Nat → String}
    (h : ¬ getUnmatchedUsers profiles scope = []) :
    (runRealMatching profiles scope testMode now time gidGen).profiles =
      profiles.map (assignFun time
        (asnOfRun gidGen (committedChunks now (getUnmatchedUsers profiles scope)))) := by
  rw [run_eq h]

theorem run_newGroups_eq {profiles : List Profile} {scope : Option Location} {testMode : Bool}
    {now : YM} {time : Int} {gidGen : Nat → String}
    (h : ¬ getUnmatchedUsers profiles scope = []) :
    (runRealMatching profiles scope testMode now time gidGen).newGroups =
      (withIdx 0 (committedChunks now (getUnmatchedUsers profiles scope))).map
        (fun p => mkGroupOf testMode time (gidGen p.1) p.2) := by
  rw [run_eq h]

theorem run_users_matched_eq {profiles : List Profile} {scope : Option Location}
    {testMode : Bool} {now : YM} {time : Int} {gidGen : Nat → String}
    (h : ¬ getUnmatchedUsers profiles scope = []) :
    (runRealMatching profiles scope testMode now time gidGen).result.users_matched =
      ((committedChunks now (getUnmatchedUsers profiles scope)).map
        (fun ci => ci.chunk.length)).sum := by
  rw [run_eq h]

theorem run_users_unmatched_eq {profiles : List Profile} {scope : Option Location}
    {testMode : Bool} {now : YM} {time : Int} {gidGen : Nat → String}
    (h : ¬ getUnmatchedUsers profiles scope = []) :
    (runRealMatching profiles scope testMode now time gidGen).result.users_unmatched =
      (getUnmatchedUsers profiles scope).length -
        ((committedChunks now (getUnmatchedUsers profiles scope)).map
          (fun ci => ci.chunk.length)).sum := by
  rw [run_eq h]

theorem run_groups_created_eq {profiles : List Profile} {scope : Option Location}
    {testMode : Bool} {now : YM} {time : Int} {gidGen : Nat → String}
    (h : ¬ getUnmatchedUsers profiles scope = []) :
    (runRealMatching profiles scope testMode now time gidGen).result.groups_created =
      (runRealMatching profiles scope testMode now time gidGen).result.groups.length := by
  rw [run_eq h]

theorem mem_run_groups {profiles : List Profile} {scope : Option Location} {testMode : Bool}
    {now : YM} {time : Int} {gidGen : Nat → String} {g : GroupRec}
    (hg : g ∈ (runRealMatching profiles scope testMode now time gidGen).result.groups) :
    ∃ n ci, (n, ci) ∈ withIdx 0 (committedChunks now (getUnmatchedUsers profiles scope)) ∧
      g = mkGroupOf testMode time (gidGen n) ci := by
  by_cases h : getUnmatchedUsers profiles scope = []
  · rw [run_empty h] at hg
    simp at hg
  · rw [run_groups_eq h] at hg
    obtain ⟨p, hp, rfl⟩ := List.mem_map.mp hg
    exact ⟨p.1, p.2, hp, rfl⟩

theorem sum_map_add {β : Type} (f g : β → Nat) :
    ∀ L : List β, (L.map (fun b => f b + g b)).sum = (L.map f).sum + (L.map g).sum := by
  intro L
  induction L with
  | nil => rfl
  | cons b t ih =>
    simp only [List.map_cons, List.sum_cons, ih]
    omega

theorem sum_map_indicator {β : Type} (q : β → Bool) :
    ∀ L : List β, (L.map (fun b => if q b then 1 else 0)).sum = L.countP q := by
  intro L
  induction L with
  | nil => rfl
  | cons b t ih =>
    simp only [List.map_cons, List.sum_cons, ih, List.countP_cons]
    by_cases h : q b
    · simp only [h, ite_true]
      omega
    · simp only [h, ite_false]
      omega

theorem countP_le_one_unique {β : Type} (q : β → Bool) :
    ∀ L : List β, L.Nodup →
      (∀ a b, a ∈ L → b ∈ L → q a = true → q b = true → a = b) → L.countP q ≤ 1 := by
  intro L
  induction L with
  | nil => intro _ _; simp
  | cons a t ih =>
    intro hnd hu
    rw [List.countP_cons]
    by_cases ha : q a = true
    · have ht : t.countP q = 0 := by
        rw [List.countP_eq_zero]
        intro b hb hqb
        have : b = a := hu b a (List.mem_cons_of_mem _ hb) (List.mem_cons_self _ _) hqb ha
        subst this
        exact (List.nodup_cons.mp hnd).1 hb
      rw [ht]
      simp [ha]
    · have ht : t.countP q ≤ 1 :=
        ih (List.nodup_cons.mp hnd).2
          (fun x y hx hy hqx hqy =>
            hu x y (List.mem_cons_of_mem _ hx) (List.mem_cons_of_mem _ hy) hqx hqy)
      rw [if_neg ha]
      omega

theorem sum_bucket_lengths_le (now : YM) (L : List (String × LifeStage)) (hnd : L.Nodup) :
    ∀ l : List Profile,
      (L.map (fun p => (l.filter (inBucket now p.1 p.2)).length)).sum ≤ l.length := by
  intro l
  induction l with
  | nil => simp
  | cons u t ih =>
    have hterm : ∀ p : String × LifeStage,
        ((u :: t).filter (inBucket now p.1 p.2)).length =
          (if inBucket now p.1 p.2 u then 1 else 0) + (t.filter (inBucket now p.1 p.2)).length := by
      intro p
      by_cases h : inBucket now p.1 p.2 u = true
      · simp only [List.filter_cons, h, ite_true, List.length_cons]
        omega
      · simp [List.filter_cons, h]
    have hrw : (L.map (fun p => ((u :: t).filter (inBucket now p.1 p.2)).length)).sum =
        (L.map (fun p => if inBucket now p.1 p.2 u then 1 else 0)).sum +
          (L.map (fun p => (t.filter (inBucket now p.1 p.2)).length)).sum := by
      rw [← sum_map_add]
      congr 1
      exact List.map_congr_left (fun p _ => hterm p)
    rw [hrw, sum_map_indicator]
    have hcount : L.countP (fun p => inBucket now p.1 p.2 u) ≤ 1 := by
      apply countP_le_one_unique _ _ hnd
      intro a b _ _ hqa hqb
      have := @inBucket_unique now a.1 b.1 a.2 b.2 u
        (by simpa using hqa) (by simpa using hqb)
      exact Prod.ext this.1 this.2
    have := ih
    simp only [List.length_cons]
    omega

theorem matched_le_snapshot (now : YM) (snapshot : List Profile) :
    ((committedChunks now snapshot).map (fun ci => ci.chunk.length)).sum ≤
      snapshot.length := by
  rw [← matchedIds_sum_length]
  unfold matchedIds
  rw [List.length_map, matchedProfiles_eq, List.length_flatMap]
  have hpt : ∀ p ∈ bucketPairs now snapshot,
      (matchedOfBucket now snapshot p.1 p.2).length ≤
        (bucketUsers now snapshot p.1 p.2).length := by
    intro p _
    have h1 : (matchedOfBucket now snapshot p.1 p.2).length ≤
        (sortUsersByAge now p.2 (bucketUsers now snapshot p.1 p.2)).length :=
      (chunksOfBucket_flatten_sublist now p.2 _).length_le
    have h2 : (sortUsersByAge now p.2 (bucketUsers now snapshot p.1 p.2)).length =
        (bucketUsers now snapshot p.1 p.2).length :=
      (sortUsersByAge_perm now p.2 _).length_eq
    omega
  calc ((bucketPairs now snapshot).map
        (fun p => (matchedOfBucket now snapshot p.1 p.2).length)).sum ≤
      ((bucketPairs now snapshot).map
        (fun p => (bucketUsers now snapshot p.1 p.2).length)).sum :=
        List.sum_le_sum hpt
    _ ≤ snapshot.length :=
        sum_bucket_lengths_le now _ (nodup_bucketPairs now snapshot) snapshot

/-- C6: life-stage classification considers only the first child in the
user's list: with no children it returns none; an expecting first child gives
Expecting; otherwise, with `ageInMonths = (now.year - birth.year)*12 +
(now.month - birth.month)`, it returns Newborn when `ageInMonths ≤ 6`, Infant
when `6 < ageInMonths ≤ 18`, Toddler when `18 < ageInMonths ≤ 36`, and none
(the user is excluded from the run) when `ageInMonths > 36`. -/
theorem life_stage_classification (now : YM) (u : Profile) (c : Child) :
    (u.children = [] → getLifeStageFromUser now u = none) ∧
    (u.children.head? = some c → c.ctype = ChildType.expecting →
      getLifeStageFromUser now u = some LifeStage.expecting) ∧
    (u.children.head? = some c → c.ctype ≠ ChildType.expecting →
      (now.year - c.birth_year) * 12 + (now.month - c.birth_month) ≤ 6 →
      getLifeStageFromUser now u = some LifeStage.newborn) ∧
    (u.children.head? = some c → c.ctype ≠ ChildType.expecting →
      6 < (now.year - c.birth_year) * 12 + (now.month - c.birth_month) →
      (now.year - c.birth_year) * 12 + (now.month - c.birth_month) ≤ 18 →
      getLifeStageFromUser now u = some LifeStage.infant) ∧
    (u.children.head? = some c → c.ctype ≠ ChildType.expecting →
      18 < (now.year - c.birth_year) * 12 + (now.month - c.birth_month) →
      (now.year - c.birth_year) * 12 + (now.month - c.birth_month) ≤ 36 →
      getLifeStageFromUser now u = some LifeStage.toddler) ∧
    (u.children.head? = some c → c.ctype ≠ ChildType.expecting →
      36 < (now.year - c.birth_year) * 12 + (now.month - c.birth_month) →
      getLifeStageFromUser now u = none) := by
  cases hch : u.children with
  | nil =>
    have hnone : getLifeStageFromUser now u = none := by
      unfold getLifeStageFromUser
      rw [hch]
    have hhd : u.children.head? = none := by rw [hch]; rfl
    refine ⟨fun _ => hnone, ?_, ?_, ?_, ?_, ?_⟩ <;>
      · intro hc
        exact absurd hc (by simp)
  | cons a rest =>
    have hstage : getLifeStageFromUser now u =
        (if a.ctype = ChildType.expecting then some LifeStage.expecting
         else
          if (now.year - a.birth_year) * 12 + (now.month - a.birth_month) ≤ 6 then
            some LifeStage.newborn
          else if (now.year - a.birth_year) * 12 + (now.month - a.birth_month) ≤ 18 then
            some LifeStage.infant
          else if (now.year - a.birth_year) * 12 + (now.month - a.birth_month) ≤ 36 then
            some LifeStage.toddler
          else none) := by
      unfold getLifeStageFromUser
      rw [hch]
    refine ⟨fun h => ?_, fun hc hexp => ?_, fun hc hexp h6 => ?_,
      fun hc hexp h6 h18 => ?_, fun hc hexp h18 h36 => ?_, fun hc hexp h36 => ?_⟩
    · exact absurd h (by simp)
    all_goals
      have hac : a = c := by simpa using hc
      subst hac
    · rw [hstage, if_pos hexp]
    · rw [hstage, if_neg hexp, if_pos h6]
    · rw [hstage, if_neg hexp, if_neg (by omega), if_pos h18]
    · rw [hstage, if_neg hexp, if_neg (by omega), if_neg (by omega), if_pos h36]
    · rw [hstage, if_neg hexp, if_neg (by omega), if_neg (by omega), if_neg (by omega)]

/-- Witness for C6: a child born January 2025 is 9 months old in October 2025
and is classified Infant. -/
theorem life_stage_classification_witness :
    getLifeStageFromUser now1 (mkUser "v1" ChildType.existing 2025 1) =
      some LifeStage.infant :=
  (life_stage_classification now1 (mkUser "v1" ChildType.existing 2025 1)
      { ctype := ChildType.existing, birth_month := 1, birth_year := 2025 }).2.2.2.1
    (by decide) (by decide) (by decide) (by decide)

/-- C7: the bucket order fed to chunking is a permutation of the bucket,
pairwise ascending in the comparator key, and stable (users with equal keys
keep their snapshot order: the sort leaves every equal-key fibre of the list
unchanged).  The key is the due month `birth_year*12 + (birth_month - 1)` for
the Expecting bucket and the computed `ageInMonths` for every other bucket. -/
theorem sort_order_and_stability (now : YM) (ls : LifeStage) (users : List Profile) :
    List.Perm (sortUsersByAge now ls users) users ∧
    (sortUsersByAge now ls users).Pairwise
      (fun a b => sortKey now ls a ≤ sortKey now ls b) ∧
    (∀ kv : Int,
      (sortUsersByAge now ls users).filter (fun u => decide (sortKey now ls u = kv)) =
        users.filter (fun u => decide (sortKey now ls u = kv))) ∧
    (ls = LifeStage.expecting → ∀ u : Profile, sortKey now ls u = dueKey (child0 u)) ∧
    (ls ≠ LifeStage.expecting → ∀ u : Profile, sortKey now ls u = ageKey now (child0 u)) := by
  refine ⟨sortUsersByAge_perm now ls users, sortUsersByAge_sorted now ls users,
    fun kv => sortUsersByAge_filter_key now ls kv users, fun h u => ?_, fun h u => ?_⟩
  · subst h; rfl
  · cases ls with
    | expecting => exact absurd rfl h
    | newborn => rfl
    | infant => rfl
    | toddler => rfl

/-- Witness for C7: at the Expecting stage the key is the due month; at the
Newborn stage it is the age in months. -/
theorem sort_order_and_stability_witness :
    sortKey now1 LifeStage.expecting (mkUser "v1" ChildType.expecting 2026 2) =
      dueKey (child0 (mkUser "v1" ChildType.expecting 2026 2)) ∧
    sortKey now1 LifeStage.newborn (mkUser "v2" ChildType.existing 2025 9) =
      ageKey now1 (child0 (mkUser "v2" ChildType.existing 2025 9)) :=
  ⟨(sort_order_and_stability now1 LifeStage.expecting []).2.2.2.1 rfl _,
   (sort_order_and_stability now1 LifeStage.newborn []).2.2.2.2 (by decide) _⟩

/-- C5: every committed group has between `minGroupSize = 4` and
`maxGroupSize = 6` members; the chunking loop takes consecutive slices from
the front of the sorted bucket (the i-th chunk is `take 6 (drop (6*i))`, and
the concatenation of all chunks is a front segment of the sorted bucket whose
unused tail is shorter than 4); and 13 same-city same-stage users yield
exactly 2 groups of 6 with 1 user unmatched. -/
theorem greedy_chunk_sizes (profiles : List Profile) (scope : Option Location)
    (testMode : Bool) (now : YM) (time : Int) (gidGen : Nat → String) :
    (∀ g ∈ (runRealMatching profiles scope testMode now time gidGen).result.groups,
      minGroupSize ≤ g.member_ids.length ∧ g.member_ids.length ≤ maxGroupSize) ∧
    (∀ l : List Profile, ∀ i : Nat, i < (chunkList l).length →
      (chunkList l)[i]? = some ((l.drop (maxGroupSize * i)).take maxGroupSize)) ∧
    (∀ l : List Profile, ∃ t, (chunkList l).flatten ++ t = l ∧ t.length < minGroupSize) ∧
    ((runRealMatching db13 none false now1 7 gidA).result.groups_created = 2 ∧
      (runRealMatching db13 none false now1 7 gidA).result.groups.map
        (fun g => g.member_ids.length) = [6, 6] ∧
      (runRealMatching db13 none false now1 7 gidA).result.users_matched = 12 ∧
      (runRealMatching db13 none false now1 7 gidA).result.users_unmatched = 1) := by
  refine ⟨?_, chunkList_getElem, chunkList_flatten_eq, by decide, by decide, by decide, by decide⟩
  intro g hg
  obtain ⟨n, ci, hmem, rfl⟩ := mem_run_groups hg
  rw [mkGroupOf_member_ids, List.length_map]
  exact committedChunks_size (mem_withIdx _ _ _ hmem)

/-- C10: `users_matched` equals the sum of the member counts of the returned
groups, and `users_matched + users_unmatched` equals the size of the initial
eligible group-less snapshot (users dropped for missing location or
unresolvable life stage and members of rejected trailing chunks are all
accounted to `users_unmatched`). -/
theorem result_count_consistency (profiles : List Profile) (scope : Option Location)
    (testMode : Bool) (now : YM) (time : Int) (gidGen : Nat → String) :
    (runRealMatching profiles scope testMode now time gidGen).result.users_matched =
      ((runRealMatching profiles scope testMode now time gidGen).result.groups.map
        (fun g => g.member_ids.length)).sum ∧
    (runRealMatching profiles scope testMode now time gidGen).result.users_matched +
        (runRealMatching profiles scope testMode now time gidGen).result.users_unmatched =
      (getUnmatchedUsers profiles scope).length := by
  by_cases h : getUnmatchedUsers profiles scope = []
  · rw [run_empty h, h]
    exact ⟨rfl, rfl⟩
  · constructor
    · rw [run_users_matched_eq h, run_groups_eq h, List.map_map]
      have : ((fun g : GroupRec => g.member_ids.length) ∘
          (fun p : Nat × ChunkInfo => mkGroupOf testMode time (gidGen p.1) p.2)) =
          (fun p : Nat × ChunkInfo => p.2.chunk.length) := by
        funext p
        simp [mkGroupOf_member_ids, List.length_map]
      rw [this]
      have hsnd : (withIdx 0 (committedChunks now (getUnmatchedUsers profiles scope))).map
          (fun p : Nat × ChunkInfo => p.2.chunk.length) =
          (committedChunks now (getUnmatchedUsers profiles scope)).map
            (fun ci => ci.chunk.length) := by
        rw [show (fun p : Nat × ChunkInfo => p.2.chunk.length) =
            (fun ci : ChunkInfo => ci.chunk.length) ∘ Prod.snd from rfl]
        rw [← List.map_map, withIdx_map_snd]
      rw [hsnd]
    · rw [run_users_matched_eq h, run_users_unmatched_eq h]
      have := matched_le_snapshot now (getUnmatchedUsers profiles scope)
      omega

/-- C1 (code bug): the spec's Matchability Threshold is not enforced by
`runRealMatching`.  Five same-city Toddler users aged 19, 20, 21, 22 and 36
months (spread 17 months, far above the documented 6-month example threshold)
are committed as a single 5-member group instead of being rejected; nobody is
left unmatched. -/
theorem matchability_threshold_not_enforced :
    (runRealMatching c1db none false now1 7 gidA).result.groups_created = 1 ∧
    ((committedChunks now1 (getUnmatchedUsers c1db none)).map
      (fun ci => ci.chunk.map (fun u => u.session_id))) =
        [["u1", "u2", "u3", "u4", "u5"]] ∧
    ((committedChunks now1 (getUnmatchedUsers c1db none)).map
      (fun ci => keySpread now1 ci.stage ci.chunk)) = [17] ∧
    (6 : Int) < 17 ∧
    (runRealMatching c1db none false now1 7 gidA).result.users_unmatched = 0 := by
  decide

/-- C3 (code bug): the committer performs no re-check before writing.  With
`w1` already holding `group_id = "g-old"` in the current store (acquired after
the snapshot), the commit step still persists the group and overwrites every
member's `group_id` — the chunk is not rejected. -/
theorem commit_has_no_recheck :
    (c3db.map (fun p => p.group_id) = [some "g-old", none, none, none]) ∧
    ((commitChunk false 50 "g-new" chunk4Info (c3db, [])).2.map (fun g => g.group_id) =
      ["g-new"]) ∧
    ((commitChunk false 50 "g-new" chunk4Info (c3db, [])).1.map (fun p => p.group_id) =
      [some "g-new", some "g-new", some "g-new", some "g-new"]) := by
  decide

/-- C4 (code bug): the group document and the member updates are not one
atomic unit.  The group document is persisted by its own `setDoc` before the
member `writeBatch`; if the batch commit fails, the store is left with the
group present and none of its four listed members assigned. -/
theorem commit_not_atomic :
    ((commitChunkFallible false false 50 "g-9" chunk4Info (chunk4, [])).2.map
      (fun g => (g.group_id, g.status, g.member_ids)) =
        [("g-9", "pending", ["w1", "w2", "w3", "w4"])]) ∧
    ((commitChunkFallible false false 50 "g-9" chunk4Info (chunk4, [])).1.map
      (fun p => p.group_id) = [none, none, none, none]) := by
  decide

/-- Counterexample to C9 as stated: a matching run writes `last_updated` in
addition to `group_id` and `matched_at`.  Four matched users whose
`last_updated` was 0 before the run all have `last_updated = 100` (the run's
`Date.now()`) afterwards. -/
theorem run_writes_last_updated :
    (chunk4.map (fun p => p.last_updated) = [0, 0, 0, 0]) ∧
    ((runRealMatching chunk4 none false now1 100 gidA).profiles.map
      (fun p => p.last_updated) = [100, 100, 100, 100]) := by
  decide

/-- C9 (amended): on user records a matching run writes only the fields
`group_id`, `matched_at` and `last_updated`: every profile in the resulting
store is either its old value (in particular whenever its session id is in no
returned group) or its old value with exactly `group_id := some gid`,
`matched_at := some time`, `last_updated := time` — all remaining fields
(session id, email, onboarding state, interests, location, children,
eligibility) are unchanged. -/
theorem run_user_write_frame (profiles : List Profile) (scope : Option Location)
    (testMode : Bool) (now : YM) (time : Int) (gidGen : Nat → String) :
    List.Forall₂ (fun p q =>
        (q.session_id = p.session_id ∧ q.email = p.email ∧ q.onboarded = p.onboarded ∧
          q.onboarding_step = p.onboarding_step ∧ q.interests = p.interests ∧
          q.location = p.location ∧ q.children = p.children ∧
          q.matching_eligible = p.matching_eligible) ∧
        ((∀ g ∈ (runRealMatching profiles scope testMode now time gidGen).result.groups,
            p.session_id ∉ g.member_ids) → q = p) ∧
        (q = p ∨ ∃ gid, q = assignUser gid time p))
      profiles (runRealMatching profiles scope testMode now time gidGen).profiles := by
  by_cases h : getUnmatchedUsers profiles scope = []
  · rw [run_empty h]
    apply List.forall₂_same.mpr
    intro p _
    exact ⟨⟨rfl, rfl, rfl, rfl, rfl, rfl, rfl, rfl⟩, fun _ => rfl, Or.inl rfl⟩
  · rw [run_profiles_eq h]
    have hmap : ∀ p ∈ profiles,
        ((fun p q =>
          (q.session_id = p.session_id ∧ q.email = p.email ∧ q.onboarded = p.onboarded ∧
            q.onboarding_step = p.onboarding_step ∧ q.interests = p.interests ∧
            q.location = p.location ∧ q.children = p.children ∧
            q.matching_eligible = p.matching_eligible) ∧
          ((∀ g ∈ (runRealMatching profiles scope testMode now time gidGen).result.groups,
              p.session_id ∉ g.member_ids) → q = p) ∧
          (q = p ∨ ∃ gid, q = assignUser gid time p)) p
          (assignFun time
            (asnOfRun gidGen (committedChunks now (getUnmatchedUsers profiles scope))) p)) := by
      intro p _
      set asn := asnOfRun gidGen (committedChunks now (getUnmatchedUsers profiles scope))
        with hasn
      by_cases hmem : ∃ a ∈ asn, p.session_id ∈ a.1
      · obtain ⟨gid, _, heq⟩ := assignFun_mem time asn p hmem
        rw [heq]
        refine ⟨⟨rfl, rfl, rfl, rfl, rfl, rfl, rfl, rfl⟩, ?_, Or.inr ⟨gid, rfl⟩⟩
        intro hnone
        exfalso
        obtain ⟨a, ha, hpa⟩ := hmem
        rw [hasn] at ha
        unfold asnOfRun at ha
        obtain ⟨q, hq, rfl⟩ := List.mem_map.mp ha
        have hgmem : mkGroupOf testMode time (gidGen q.1) q.2 ∈
            (runRealMatching profiles scope testMode now time gidGen).result.groups := by
          rw [run_groups_eq h]
          exact List.mem_map.mpr ⟨q, hq, rfl⟩
        exact hnone _ hgmem hpa
      · rw [assignFun_not_mem time asn p (by push_neg at hmem; exact hmem)]
        exact ⟨⟨rfl, rfl, rfl, rfl, rfl, rfl, rfl, rfl⟩, fun _ => rfl, Or.inl rfl⟩
    exact (List.forall₂_map_right_iff).mpr (List.forall₂_same.mpr hmap)

/-! Lemmas relating one run's writes to the matched-id set. -/

theorem withIdx_mem_of_mem {α : Type} :
    ∀ (l : List α) (s : Nat) (a : α), a ∈ l → ∃ n, (n, a) ∈ withIdx s l := by
  intro l
  induction l with
  | nil => intro s a ha; simp at ha
  | cons x xs ih =>
    intro s a ha
    rcases List.mem_cons.mp ha with rfl | ha
    · exact ⟨s, List.mem_cons_self _ _⟩
    · obtain ⟨n, hn⟩ := ih (s + 1) a ha
      exact ⟨n, List.mem_cons_of_mem _ hn⟩

theorem mem_matchedIds_iff {now : YM} {snapshot : List Profile} {x : String} :
    x ∈ matchedIds now snapshot ↔
      ∃ ci ∈ committedChunks now snapshot, ∃ u ∈ ci.chunk, u.session_id = x := by
  unfold matchedIds matchedProfiles
  rw [List.mem_map]
  constructor
  · rintro ⟨u, hu, rfl⟩
    obtain ⟨ci, hci, hu⟩ := List.mem_flatMap.mp hu
    exact ⟨ci, hci, u, hu, rfl⟩
  · rintro ⟨ci, hci, u, hu, rfl⟩
    exact ⟨u, List.mem_flatMap.mpr ⟨ci, hci, hu⟩, rfl⟩

theorem exists_asn_iff {gidGen : Nat → String} {now : YM} {snapshot : List Profile}
    {x : String} :
    (∃ a ∈ asnOfRun gidGen (committedChunks now snapshot), x ∈ a.1) ↔
      x ∈ matchedIds now snapshot := by
  rw [mem_matchedIds_iff]
  constructor
  · rintro ⟨a, ha, hx⟩
    unfold asnOfRun at ha
    obtain ⟨q, hq, rfl⟩ := List.mem_map.mp ha
    obtain ⟨u, hu, rfl⟩ := List.mem_map.mp hx
    exact ⟨q.2, mem_withIdx _ _ _ hq, u, hu, rfl⟩
  · rintro ⟨ci, hci, u, hu, rfl⟩
    obtain ⟨n, hn⟩ := withIdx_mem_of_mem _ 0 _ hci
    refine ⟨(ci.chunk.map (fun v => v.session_id), gidGen n), ?_, ?_⟩
    · unfold asnOfRun
      exact List.mem_map.mpr ⟨(n, ci), hn, rfl⟩
    · exact List.mem_map.mpr ⟨u, hu, rfl⟩

theorem asn_gid_mem {gidGen : Nat → String} {cs : List ChunkInfo}
    {a : List String × String} (h : a ∈ asnOfRun gidGen cs) : ∃ n, a.2 = gidGen n := by
  unfold asnOfRun at h
  obtain ⟨q, _, rfl⟩ := List.mem_map.mp h
  exact ⟨q.1, rfl⟩

theorem assignFun_run_not_matched {time : Int} {gidGen : Nat → String} {now : YM}
    {snapshot : List Profile} {p : Profile}
    (h : p.session_id ∉ matchedIds now snapshot) :
    assignFun time (asnOfRun gidGen (committedChunks now snapshot)) p = p := by
  apply assignFun_not_mem
  intro a ha hx
  exact h (exists_asn_iff.mp ⟨a, ha, hx⟩)

theorem assignFun_run_matched {time : Int} {gidGen : Nat → String} {now : YM}
    {snapshot : List Profile} {p : Profile}
    (h : p.session_id ∈ matchedIds now snapshot) :
    ∃ n, assignFun time (asnOfRun gidGen (committedChunks now snapshot)) p =
      assignUser (gidGen n) time p := by
  obtain ⟨g, hg, he⟩ := assignFun_mem time _ p (exists_asn_iff.mpr h)
  obtain ⟨a, ha, rfl⟩ := List.mem_map.mp hg
  obtain ⟨n, hn⟩ := asn_gid_mem ha
  exact ⟨n, by rw [he, hn]⟩

theorem truthy_assignUser {g : String} (t : Int) (p : Profile) (hg : g ≠ "") :
    truthy (assignUser g t p).group_id = true := by
  show truthy (some g) = true
  simp [truthy, hg]

theorem snapshot_sid_nodup {profiles : List Profile} {scope : Option Location}
    (h : (profiles.map (fun p => p.session_id)).Nodup) :
    ((getUnmatchedUsers profiles scope).map (fun p => p.session_id)).Nodup := by
  rw [getUnmatchedUsers_eq_filter]
  exact h.sublist ((List.filter_sublist profiles).map _)

theorem sid_mem_matchedIds {now : YM} {snapshot : List Profile} {k : String}
    {ls : LifeStage} {v : Profile} (hpair : (k, ls) ∈ bucketPairs now snapshot)
    (hv : v ∈ matchedOfBucket now snapshot k ls) :
    v.session_id ∈ matchedIds now snapshot := by
  unfold matchedIds
  apply List.mem_map.mpr
  refine ⟨v, ?_, rfl⟩
  rw [matchedProfiles_eq]
  exact List.mem_flatMap.mpr ⟨(k, ls), hpair, hv⟩

theorem matched_sid_of_mem {now : YM} {snapshot : List Profile} {x : String}
    (hx : x ∈ matchedIds now snapshot) :
    ∃ v ∈ snapshot, v.session_id = x := by
  unfold matchedIds at hx
  obtain ⟨v, hv, rfl⟩ := List.mem_map.mp hx
  exact ⟨v, mem_snapshot_of_mem_matchedProfiles hv, rfl⟩

theorem not_matched_of_truthy {profiles : List Profile} {scope : Option Location}
    {now : YM} {p : Profile}
    (hnodup : (profiles.map (fun q => q.session_id)).Nodup)
    (hp : p ∈ profiles) (ht : truthy p.group_id = true) :
    p.session_id ∉ matchedIds now (getUnmatchedUsers profiles scope) := by
  intro hmem
  obtain ⟨v, hv, hvx⟩ := matched_sid_of_mem hmem
  have hvp : v ∈ profiles := (mem_getUnmatchedUsers.mp hv).1
  have hfalse : truthy v.group_id = false :=
    (allPred_parts (mem_getUnmatchedUsers.mp hv).2).1
  have : v = p := List.inj_on_of_nodup_map hnodup hvp hp hvx
  subst this
  rw [ht] at hfalse
  exact Bool.true_eq_false.mp hfalse

theorem filter_swap {p q : Profile → Bool} (l : List Profile) :
    (l.filter p).filter q = (l.filter q).filter p := by
  rw [List.filter_filter, List.filter_filter]
  apply List.filter_congr
  intro u _
  cases p u <;> cases q u <;> rfl

/-! The snapshot left behind by one run. -/

theorem snapshot_after_run {profiles : List Profile} {scope : Option Location}
    {now : YM} {time : Int} {gidGen : Nat → String}
    (hg : ∀ n, gidGen n ≠ "") :
    getUnmatchedUsers
        (profiles.map (assignFun time
          (asnOfRun gidGen (committedChunks now (getUnmatchedUsers profiles scope)))))
        scope =
      (getUnmatchedUsers profiles scope).filter
        (fun u => !decide (u.session_id ∈
          matchedIds now (getUnmatchedUsers profiles scope))) := by
  have hpt : ∀ p ∈ profiles,
      allPred scope (assignFun time
          (asnOfRun gidGen (committedChunks now (getUnmatchedUsers profiles scope))) p) =
        ((!decide (p.session_id ∈ matchedIds now (getUnmatchedUsers profiles scope))) &&
          allPred scope p) := by
    intro p _
    by_cases hm : p.session_id ∈ matchedIds now (getUnmatchedUsers profiles scope)
    · obtain ⟨n, hn⟩ := @assignFun_run_matched time gidGen now
        (getUnmatchedUsers profiles scope) p hm
      rw [hn]
      have h1 : allPred scope (assignUser (gidGen n) time p) = false := by
        unfold allPred
        rw [show truthy (assignUser (gidGen n) time p).group_id = true from
          truthy_assignUser time p (hg n)]
        simp
      rw [h1]
      simp [hm]
    · rw [assignFun_run_not_matched hm]
      simp [hm]
  conv_lhs => rw [getUnmatchedUsers_eq_filter, List.filter_map]
  have hcongr : profiles.filter
      ((allPred scope) ∘ (assignFun time
        (asnOfRun gidGen (committedChunks now (getUnmatchedUsers profiles scope))))) =
      profiles.filter
        (fun p => (!decide (p.session_id ∈
          matchedIds now (getUnmatchedUsers profiles scope))) && allPred scope p) :=
    List.filter_congr (fun p hp => hpt p hp)
  rw [hcongr]
  have hsplit : profiles.filter
      (fun p => (!decide (p.session_id ∈
        matchedIds now (getUnmatchedUsers profiles scope))) && allPred scope p) =
      (profiles.filter (allPred scope)).filter
        (fun u => !decide (u.session_id ∈
          matchedIds now (getUnmatchedUsers profiles scope))) := by
    rw [List.filter_filter]
  rw [hsplit, ← getUnmatchedUsers_eq_filter]
  apply List.map_congr_left ?_ |>.trans (List.map_id _)
  intro u hu
  have hnm : u.session_id ∉ matchedIds now (getUnmatchedUsers profiles scope) := by
    have := (List.mem_filter.mp hu).2
    simpa using this
  exact assignFun_run_not_matched hnm

/-! The residual of every bucket after a run is below the minimum size. -/

theorem matchedOfBucket_eq_flatten {now : YM} {snapshot : List Profile} {k : String}
    {ls : LifeStage}
    (hsize : minGroupSize ≤ (bucketUsers now snapshot k ls).length) :
    matchedOfBucket now snapshot k ls =
      (chunkList (sortUsersByAge now ls (bucketUsers now snapshot k ls))).flatten := by
  unfold matchedOfBucket chunksOfBucket
  rw [if_pos hsize]

theorem residual_small (now : YM) (snapshot : List Profile)
    (hsnd : (snapshot.map (fun p => p.session_id)).Nodup)
    (k : String) (ls : LifeStage) :
    ((bucketUsers now snapshot k ls).filter
      (fun u => !decide (u.session_id ∈ matchedIds now snapshot))).length <
      minGroupSize := by
  by_cases hsize : minGroupSize ≤ (bucketUsers now snapshot k ls).length
  · obtain ⟨t, ht, htl⟩ :=
      chunkList_flatten_eq (sortUsersByAge now ls (bucketUsers now snapshot k ls))
    have hperm : List.Perm
        ((sortUsersByAge now ls (bucketUsers now snapshot k ls)).filter
          (fun u => !decide (u.session_id ∈ matchedIds now snapshot)))
        ((bucketUsers now snapshot k ls).filter
          (fun u => !decide (u.session_id ∈ matchedIds now snapshot))) :=
      (sortUsersByAge_perm now ls _).filter _
    -- the bucket is nonempty, so its pair is processed by the run
    have hb_ne : bucketUsers now snapshot k ls ≠ [] := by
      intro hnil
      rw [hnil] at hsize
      simp [minGroupSize] at hsize
    obtain ⟨u0, hu0⟩ := List.exists_mem_of_ne_nil _ hb_ne
    have hpair : (k, ls) ∈ bucketPairs now snapshot :=
      mem_bucketPairs_of_inBucket (mem_bucketUsers.mp hu0).1 (mem_bucketUsers.mp hu0).2
    -- every chunk member carries a matched id
    have hflat : (chunkList (sortUsersByAge now ls
        (bucketUsers now snapshot k ls))).flatten.filter
        (fun u => !decide (u.session_id ∈ matchedIds now snapshot)) = [] := by
      rw [List.filter_eq_nil_iff]
      intro v hv
      have hvm : v.session_id ∈ matchedIds now snapshot :=
        sid_mem_matchedIds hpair (by rw [matchedOfBucket_eq_flatten hsize]; exact hv)
      simp [hvm]
    have hnod_sorted : (sortUsersByAge now ls (bucketUsers now snapshot k ls)).Nodup := by
      have h1 : ((bucketUsers now snapshot k ls).map (fun p => p.session_id)).Nodup :=
        hsnd.sublist ((List.filter_sublist snapshot).map _)
      have h2 : ((sortUsersByAge now ls (bucketUsers now snapshot k ls)).map
          (fun p => p.session_id)).Nodup :=
        (((sortUsersByAge_perm now ls _).map _).nodup_iff).mpr h1
      exact h2.of_map _
    -- no member of the leftover tail carries a matched id
    have htail : t.filter
        (fun u => !decide (u.session_id ∈ matchedIds now snapshot)) = t := by
      rw [List.filter_eq_self]
      intro w hw
      by_contra hwm
      have hwm' : w.session_id ∈ matchedIds now snapshot := by
        simpa using hwm
      have hw_sorted : w ∈ sortUsersByAge now ls (bucketUsers now snapshot k ls) := by
        rw [← ht]
        exact List.mem_append_right _ hw
      have hw_bucket : w ∈ bucketUsers now snapshot k ls :=
        (sortUsersByAge_perm now ls _).mem_iff.mp hw_sorted
      have hw_snap : w ∈ snapshot := (mem_bucketUsers.mp hw_bucket).1
      have hw_matchedP : w ∈ matchedProfiles now snapshot := by
        unfold matchedIds at hwm'
        obtain ⟨v, hv, hveq⟩ := List.mem_map.mp hwm'
        have hv_snap : v ∈ snapshot := mem_snapshot_of_mem_matchedProfiles hv
        have hvw : v = w := List.inj_on_of_nodup_map hsnd hv_snap hw_snap hveq
        rwa [hvw] at hv
      obtain ⟨k', ls', hpair', hwb'⟩ := mem_matchedProfiles.mp hw_matchedP
      have h1 := mem_bucketUsers.mp (mem_matchedOfBucket hwb')
      have h2 := inBucket_unique h1.2 (mem_bucketUsers.mp hw_bucket).2
      have hw_flat : w ∈ (chunkList (sortUsersByAge now ls
          (bucketUsers now snapshot k ls))).flatten := by
        rw [← matchedOfBucket_eq_flatten hsize, ← h2.1, ← h2.2]
        exact hwb'
      have hnd2 : ((chunkList (sortUsersByAge now ls
          (bucketUsers now snapshot k ls))).flatten ++ t).Nodup := by
        rw [ht]
        exact hnod_sorted
      exact (List.disjoint_of_nodup_append hnd2) hw_flat hw
    have hsplit2 : (sortUsersByAge now ls (bucketUsers now snapshot k ls)).filter
        (fun u => !decide (u.session_id ∈ matchedIds now snapshot)) =
        ((chunkList (sortUsersByAge now ls (bucketUsers now snapshot k ls))).flatten.filter
          (fun u => !decide (u.session_id ∈ matchedIds now snapshot))) ++
          t.filter (fun u => !decide (u.session_id ∈ matchedIds now snapshot)) := by
      conv_lhs => rw [← ht]
      rw [List.filter_append]
    rw [← hperm.length_eq, hsplit2, hflat, htail]
    simpa using htl
  · have hle := List.length_filter_le
      (fun u => !decide (u.session_id ∈ matchedIds now snapshot))
      (bucketUsers now snapshot k ls)
    omega

theorem committedChunks_nil {now : YM} {snapshot : List Profile}
    (h : ∀ k ls, (bucketUsers now snapshot k ls).length < minGroupSize) :
    committedChunks now snapshot = [] := by
  unfold committedChunks
  rw [List.flatMap_eq_nil_iff]
  intro p _
  have hempty : chunksOfBucket now p.2 (bucketUsers now snapshot p.1 p.2) = [] := by
    unfold chunksOfBucket
    rw [if_neg (by have := h p.1 p.2; omega)]
  rw [hempty]
  rfl

theorem gidA_ne (n : Nat) : gidA n ≠ "" := by
  unfold gidA
  intro h
  have hlen : ("group-" ++ toString n).length = 0 := by rw [h]; rfl
  rw [String.length_append] at hlen
  have h6 : "group-".length = 6 := rfl
  omega

/-- C8: running the engine twice in succession over the same population, with
no record changes in between and the same classification date, creates no
group on the second call: every residual bucket is smaller than the minimum
group size, so the second run commits nothing. -/
theorem run_matching_idempotent (profiles : List Profile) (scope : Option Location)
    (tm1 tm2 : Bool) (now : YM) (t1 t2 : Int) (g1 g2 : Nat → String)
    (hnodup : (profiles.map (fun p => p.session_id)).Nodup)
    (hg1 : ∀ n, g1 n ≠ "") :
    (runRealMatching (runRealMatching profiles scope tm1 now t1 g1).profiles
        scope tm2 now t2 g2).result.groups_created = 0 := by
  by_cases h1 : getUnmatchedUsers profiles scope = []
  · rw [run_empty h1]
    rw [run_empty h1]
  · rw [run_profiles_eq h1]
    have hsnap2 := @snapshot_after_run profiles scope now t1 g1 hg1
    by_cases h2 : getUnmatchedUsers
        (profiles.map (assignFun t1
          (asnOfRun g1 (committedChunks now (getUnmatchedUsers profiles scope))))) scope = []
    · rw [run_empty h2]
    · rw [run_groups_created_eq h2, run_groups_eq h2]
      have hcs : committedChunks now
          (getUnmatchedUsers
            (profiles.map (assignFun t1
              (asnOfRun g1 (committedChunks now (getUnmatchedUsers profiles scope)))))
            scope) = [] := by
        apply committedChunks_nil
        intro k ls
        rw [hsnap2]
        have hbeq : bucketUsers now
            ((getUnmatchedUsers profiles scope).filter
              (fun u => !decide (u.session_id ∈
                matchedIds now (getUnmatchedUsers profiles scope)))) k ls =
            (bucketUsers now (getUnmatchedUsers profiles scope) k ls).filter
              (fun u => !decide (u.session_id ∈
                matchedIds now (getUnmatchedUsers profiles scope))) := by
          unfold bucketUsers
          exact filter_swap _
        rw [hbeq]
        exact residual_small now (getUnmatchedUsers profiles scope)
          (snapshot_sid_nodup hnodup) k ls
      rw [hcs]
      rfl

/-- Witness for C8: a second run over the 13-newborn population (two groups of
six committed by the first run, one user left) creates zero groups. -/
theorem run_matching_idempotent_witness :
    (runRealMatching (runRealMatching db13 none false now1 7 gidA).profiles
        none false now1 9 gidA).result.groups_created = 0 :=
  run_matching_idempotent db13 none false false now1 7 9 gidA gidA (by decide) gidA_ne

/-! Cross-run invariant machinery. -/

theorem profiles_sid_after_run (profiles : List Profile) (scope : Option Location)
    (testMode : Bool) (now : YM) (time : Int) (gidGen : Nat → String) :
    (runRealMatching profiles scope testMode now time gidGen).profiles.map
        (fun p => p.session_id) =
      profiles.map (fun p => p.session_id) := by
  by_cases h : getUnmatchedUsers profiles scope = []
  · rw [run_empty h]
  · rw [run_profiles_eq h, List.map_map]
    apply List.map_congr_left
    intro p _
    exact assignFun_session_id time _ p

theorem truthy_preserved {profiles : List Profile} {scope : Option Location}
    {testMode : Bool} {now : YM} {time : Int} {gidGen : Nat → String} {p : Profile}
    (hnodup : (profiles.map (fun q => q.session_id)).Nodup)
    (hp : p ∈ profiles) (ht : truthy p.group_id = true) :
    p ∈ (runRealMatching profiles scope testMode now time gidGen).profiles := by
  by_cases h : getUnmatchedUsers profiles scope = []
  · rw [run_empty h]
    exact hp
  · rw [run_profiles_eq h]
    refine List.mem_map.mpr ⟨p, hp, ?_⟩
    exact assignFun_run_not_matched (not_matched_of_truthy hnodup hp ht)

theorem mem_newGroup_member {profiles : List Profile} {scope : Option Location}
    {testMode : Bool} {now : YM} {time : Int} {gidGen : Nat → String}
    {g : GroupRec} {x : String}
    (hg : g ∈ (runRealMatching profiles scope testMode now time gidGen).newGroups)
    (hx : x ∈ g.member_ids) :
    x ∈ matchedIds now (getUnmatchedUsers profiles scope) := by
  by_cases h : getUnmatchedUsers profiles scope = []
  · rw [run_empty h] at hg
    simp at hg
  · rw [run_newGroups_eq h] at hg
    obtain ⟨q, hq, rfl⟩ := List.mem_map.mp hg
    rw [mkGroupOf_member_ids] at hx
    obtain ⟨u, hu, rfl⟩ := List.mem_map.mp hx
    exact mem_matchedIds_iff.mpr ⟨q.2, mem_withIdx _ _ _ hq, u, hu, rfl⟩

theorem new_member_witness {profiles : List Profile} {scope : Option Location}
    {testMode : Bool} {now : YM} {time : Int} {gidGen : Nat → String} {x : String}
    (hg : ∀ n, gidGen n ≠ "")
    (hx : x ∈ matchedIds now (getUnmatchedUsers profiles scope)) :
    ∃ q ∈ (runRealMatching profiles scope testMode now time gidGen).profiles,
      q.session_id = x ∧ truthy q.group_id = true := by
  obtain ⟨v, hv, rfl⟩ := matched_sid_of_mem hx
  have hvp : v ∈ profiles := (mem_getUnmatchedUsers.mp hv).1
  by_cases h : getUnmatchedUsers profiles scope = []
  · rw [h] at hv
    simp at hv
  · rw [run_profiles_eq h]
    obtain ⟨n, hn⟩ := @assignFun_run_matched time gidGen now
        (getUnmatchedUsers profiles scope) v hx
    refine ⟨assignFun time
      (asnOfRun gidGen (committedChunks now (getUnmatchedUsers profiles scope))) v,
      List.mem_map.mpr ⟨v, hvp, rfl⟩, ?_, ?_⟩
    · exact assignFun_session_id time _ v
    · rw [hn]
      exact truthy_assignUser time v (hg n)

theorem matchedIds_as_flatten (now : YM) (snapshot : List Profile) :
    matchedIds now snapshot =
      ((committedChunks now snapshot).map
        (fun ci => ci.chunk.map (fun u => u.session_id))).flatten := by
  unfold matchedIds matchedProfiles
  rw [List.map_flatMap]
  rw [List.flatMap_def]

theorem newGroups_pairwise_disjoint {profiles : List Profile} {scope : Option Location}
    {testMode : Bool} {now : YM} {time : Int} {gidGen : Nat → String}
    (hnodup : (profiles.map (fun q => q.session_id)).Nodup) :
    (runRealMatching profiles scope testMode now time gidGen).newGroups.Pairwise
      memberDisjoint := by
  by_cases h : getUnmatchedUsers profiles scope = []
  · rw [run_empty h]
    exact List.Pairwise.nil
  · rw [run_newGroups_eq h]
    have hmid : (matchedIds now (getUnmatchedUsers profiles scope)).Nodup :=
      nodup_matchedIds (snapshot_sid_nodup hnodup)
    rw [matchedIds_as_flatten] at hmid
    have hpw := (List.nodup_flatten.mp hmid).2
    -- transport pairwise disjointness of the id lists to the groups
    have hlists : ((withIdx 0 (committedChunks now (getUnmatchedUsers profiles scope))).map
        (fun p => mkGroupOf testMode time (gidGen p.1) p.2)).map
          (fun g => g.member_ids) =
        (committedChunks now (getUnmatchedUsers profiles scope)).map
          (fun ci => ci.chunk.map (fun u => u.session_id)) := by
      rw [List.map_map]
      rw [show ((fun g : GroupRec => g.member_ids) ∘
          (fun p : Nat × ChunkInfo => mkGroupOf testMode time (gidGen p.1) p.2)) =
          ((fun ci : ChunkInfo => ci.chunk.map (fun u => u.session_id)) ∘ Prod.snd)
        from rfl]
      rw [← List.map_map, withIdx_map_snd]
    have hpw2 : (((withIdx 0 (committedChunks now (getUnmatchedUsers profiles scope))).map
        (fun p => mkGroupOf testMode time (gidGen p.1) p.2)).map
          (fun g => g.member_ids)).Pairwise List.Disjoint := by
      rw [hlists]
      exact hpw
    have hpw3 := List.pairwise_map.mp hpw2
    apply hpw3.imp
    intro g1 g2 hd x hx1 hx2
    exact hd hx1 hx2

theorem stepRun_inv (s : MState) (pr : RunParams)
    (hInv : Inv s) (hg : ∀ n, pr.gidGen n ≠ "") :
    Inv (stepRun s pr) ∧
    ∀ p ∈ s.profiles, truthy p.group_id = true →
      p ∈ (stepRun s pr).profiles ∧
      ∀ g ∈ (runRealMatching s.profiles pr.scope pr.testMode pr.now pr.time
          pr.gidGen).newGroups,
        p.session_id ∉ g.member_ids := by
  obtain ⟨hnd, hpw, hmark⟩ := hInv
  have hsid := profiles_sid_after_run s.profiles pr.scope pr.testMode pr.now pr.time pr.gidGen
  have hnd' : ((stepRun s pr).profiles.map (fun p => p.session_id)).Nodup := by
    show ((runRealMatching s.profiles pr.scope pr.testMode pr.now pr.time
      pr.gidGen).profiles.map (fun p => p.session_id)).Nodup
    rw [hsid]
    exact hnd
  have hB : ∀ p ∈ s.profiles, truthy p.group_id = true →
      p ∈ (stepRun s pr).profiles ∧
      ∀ g ∈ (runRealMatching s.profiles pr.scope pr.testMode pr.now pr.time
          pr.gidGen).newGroups,
        p.session_id ∉ g.member_ids := by
    intro p hp ht
    refine ⟨truthy_preserved hnd hp ht, ?_⟩
    intro g hgm hx
    exact not_matched_of_truthy hnd hp ht (mem_newGroup_member hgm hx)
  refine ⟨⟨hnd', ?_, ?_⟩, hB⟩
  · -- pairwise disjointness over old ++ new
    show (s.groups ++ (runRealMatching s.profiles pr.scope pr.testMode pr.now pr.time
      pr.gidGen).newGroups).Pairwise memberDisjoint
    rw [List.pairwise_append]
    refine ⟨hpw, newGroups_pairwise_disjoint hnd, ?_⟩
    intro g1 hg1 g2 hg2 x hx1 hx2
    obtain ⟨p, hpmem, hpsid, hpt⟩ := hmark g1 hg1 x hx1
    have hxm := mem_newGroup_member hg2 hx2
    rw [← hpsid] at hxm
    exact not_matched_of_truthy hnd hpmem hpt hxm
  · -- every member of every group is marked in the new store
    show ∀ g ∈ s.groups ++ (runRealMatching s.profiles pr.scope pr.testMode pr.now pr.time
      pr.gidGen).newGroups, ∀ x ∈ g.member_ids,
      ∃ q ∈ (stepRun s pr).profiles, q.session_id = x ∧ truthy q.group_id = true
    intro g hgm x hx
    rcases List.mem_append.mp hgm with hold | hnew
    · obtain ⟨p, hpmem, hpsid, hpt⟩ := hmark g hold x hx
      exact ⟨p, truthy_preserved hnd hpmem hpt, hpsid, hpt⟩
    · exact new_member_witness hg (mem_newGroup_member hnew hx)

theorem runSeq_groups_ext :
    ∀ (ps : List RunParams) (s : MState), ∃ tail, (runSeq s ps).groups = s.groups ++ tail := by
  intro ps
  induction ps with
  | nil => intro s; exact ⟨[], (List.append_nil _).symm⟩
  | cons pr rest ih =>
    intro s
    obtain ⟨tail, htail⟩ := ih (stepRun s pr)
    refine ⟨(runRealMatching s.profiles pr.scope pr.testMode pr.now pr.time
      pr.gidGen).newGroups ++ tail, ?_⟩
    rw [show runSeq s (pr :: rest) = runSeq (stepRun s pr) rest from rfl, htail]
    rw [show (stepRun s pr).groups = s.groups ++
      (runRealMatching s.profiles pr.scope pr.testMode pr.now pr.time
        pr.gidGen).newGroups from rfl]
    rw [List.append_assoc]

theorem runSeq_inv :
    ∀ (ps : List RunParams) (s : MState),
      Inv s → (∀ pr ∈ ps, ∀ n, pr.gidGen n ≠ "") →
      Inv (runSeq s ps) ∧
      (∀ p ∈ s.profiles, truthy p.group_id = true →
        p ∈ (runSeq s ps).profiles ∧
        ∀ g ∈ (runSeq s ps).groups.drop s.groups.length, p.session_id ∉ g.member_ids) := by
  intro ps
  induction ps with
  | nil =>
    intro s hInv _
    refine ⟨hInv, fun p hp ht => ⟨hp, ?_⟩⟩
    rw [show (runSeq s []).groups = s.groups from rfl, List.drop_length]
    intro g hgm
    simp at hgm
  | cons pr rest ih =>
    intro s hInv hg
    have hstep := stepRun_inv s pr hInv (hg pr (List.mem_cons_self _ _))
    have hih := ih (stepRun s pr) hstep.1 (fun q hq => hg q (List.mem_cons_of_mem _ hq))
    refine ⟨hih.1, fun p hp ht => ?_⟩
    have hp1 := hstep.2 p hp ht
    have hih2 := hih.2 p hp1.1 ht
    refine ⟨hih2.1, ?_⟩
    intro g hgd
    obtain ⟨tail, htail⟩ := runSeq_groups_ext rest (stepRun s pr)
    have hstep_groups : (stepRun s pr).groups = s.groups ++
        (runRealMatching s.profiles pr.scope pr.testMode pr.now pr.time
          pr.gidGen).newGroups := rfl
    have hgd' : g ∈ ((stepRun s pr).groups ++ tail).drop s.groups.length := by
      rw [← htail]
      exact hgd
    rw [hstep_groups, List.append_assoc, List.drop_left] at hgd'
    rcases List.mem_append.mp hgd' with hgnew | hgtail
    · exact hp1.2 g hgnew
    · apply hih2.2 g
      rw [htail, hstep_groups, List.drop_left]
      exact hgtail

/-- C2: across any sequence of matching runs from a state satisfying the
store invariant, all committed groups (old and new) are pairwise disjoint,
every committed member's stored profile carries its (truthy) `group_id`, and
a user whose `group_id` is set is never touched again: their record survives
every later run unchanged and they appear in no group created afterwards. -/
theorem cross_run_disjointness (ps : List RunParams) (s : MState)
    (hInv : Inv s) (hgid : ∀ pr ∈ ps, ∀ n, pr.gidGen n ≠ "") :
    (runSeq s ps).groups.Pairwise memberDisjoint ∧
    (∀ g ∈ (runSeq s ps).groups, ∀ x ∈ g.member_ids,
      ∃ p ∈ (runSeq s ps).profiles, p.session_id = x ∧ truthy p.group_id = true) ∧
    (∀ p ∈ s.profiles, truthy p.group_id = true →
      p ∈ (runSeq s ps).profiles ∧
      ∀ g ∈ (runSeq s ps).groups.drop s.groups.length, p.session_id ∉ g.member_ids) := by
  have h := runSeq_inv ps s hInv hgid
  exact ⟨h.1.2.1, h.1.2.2, h.2⟩

/-- Witness for C2: one concrete run over the four-user store yields pairwise
disjoint groups. -/
theorem cross_run_disjointness_witness :
    (runSeq state0 [runParamsA]).groups.Pairwise memberDisjoint :=
  (cross_run_disjointness [runParamsA] state0
    ⟨by decide, List.Pairwise.nil, by intro g hgm; exact absurd hgm (by simp [state0])⟩
    (by
      intro q hq n
      have hq' : q = runParamsA := by simpa using hq
      subst hq'
      exact gidA_ne n)).1

/-- Witness for C5: the single chunk formed from the five-toddler list is its
first six-or-fewer elements taken from the front. -/
theorem greedy_chunk_sizes_witness :
    (chunkList c1db)[0]? = some ((c1db.drop (maxGroupSize * 0)).take maxGroupSize) :=
  (greedy_chunk_sizes [] none false now1 0 gidA).2.1 c1db 0 (by decide)

/-- Witness for C9 (amended): the frame property instantiated on the concrete
four-user run. -/
theorem run_user_write_frame_witness :
    List.Forall₂ (fun p q =>
        (q.session_id = p.session_id ∧ q.email = p.email ∧ q.onboarded = p.onboarded ∧
          q.onboarding_step = p.onboarding_step ∧ q.interests = p.interests ∧
          q.location = p.location ∧ q.children = p.children ∧
          q.matching_eligible = p.matching_eligible) ∧
        ((∀ g ∈ (runRealMatching chunk4 none false now1 100 gidA).result.groups,
            p.session_id ∉ g.member_ids) → q = p) ∧
        (q = p ∨ ∃ gid, q = assignUser gid 100 p))
      chunk4 (runRealMatching chunk4 none false now1 100 gidA).profiles :=
  run_user_write_frame chunk4 none false now1 100 gidA

/-- Witness for C10: count consistency on the concrete 13-user run. -/
theorem result_count_consistency_witness :
    (runRealMatching db13 none false now1 7 gidA).result.users_matched =
      ((runRealMatching db13 none false now1 7 gidA).result.groups.map
        (fun g => g.member_ids.length)).sum ∧
    (runRealMatching db13 none false now1 7 gidA).result.users_matched +
        (runRealMatching db13 none false now1 7 gidA).result.users_unmatched =
      (getUnmatchedUsers db13 none).length :=
  result_count_consistency db13 none false now1 7 gidA

end DadCircles
